import Mathlib

/-!
Verification of the hierarchical path estimator
(src/rts/Sim/Path/Default/PathEstimator.cpp) against its natural-language
specification.  The C++ code is shallowly embedded: pure functions become
Lean functions, the mutable tables (node masks, costs, offsets) become
explicitly passed functions, machine floats become exact rationals, and the
multi-threaded precompute driver becomes a small-step transition system.
External collaborators (terrain queries, the fine path finder, goal
definitions, flow and extra cost overlays) are parameters of the embedding,
matching the interfaces of spec section 6.
-/

namespace SpringPE

/-- Pair of integers, the engine's `int2` type. -/
structure Int2 where
  x : ℤ
  y : ℤ
  deriving DecidableEq, Repr

instance : Add Int2 := ⟨fun a b => ⟨a.x + b.x, a.y + b.y⟩⟩

/-- Modelled from the spec: the eight path directions of PathConstants.h
(which is not under src/), indexed LEFT=0, LEFT_UP=1, UP=2, RIGHT_UP=3,
RIGHT=4, RIGHT_DOWN=5, DOWN=6, LEFT_DOWN=7.  Only the first four are stored
per block (spec section 4.B). -/
inductive PathDir where
  | left
  | leftUp
  | up
  | rightUp
  | right
  | rightDown
  | down
  | leftDown
  deriving DecidableEq, Repr

/-- Numeric index of a path direction (the enum value). -/
def dirIdx : PathDir → ℕ
  | .left => 0
  | .leftUp => 1
  | .up => 2
  | .rightUp => 3
  | .right => 4
  | .rightDown => 5
  | .down => 6
  | .leftDown => 7

/-- Modelled from the spec: the block-coordinate displacement
`Δ(dir)` of PE_DIRECTION_VECTORS (PathConstants.h, not under src/).
Opposite directions carry negated vectors. -/
def dirVec : PathDir → Int2
  | .left => ⟨-1, 0⟩
  | .leftUp => ⟨-1, -1⟩
  | .up => ⟨0, -1⟩
  | .rightUp => ⟨1, -1⟩
  | .right => ⟨1, 0⟩
  | .rightDown => ⟨1, 1⟩
  | .down => ⟨0, 1⟩
  | .leftDown => ⟨-1, 1⟩

/-- The direction pointing the opposite way (enum value plus four, mod 8). -/
def oppositeDir : PathDir → PathDir
  | .left => .right
  | .leftUp => .rightDown
  | .up => .down
  | .rightUp => .leftDown
  | .right => .left
  | .rightDown => .leftUp
  | .down => .up
  | .leftDown => .rightUp

/-- Number of stored vertex directions per block (PATH_DIRECTION_VERTICES). -/
def PATH_DIRECTION_VERTICES : ℕ := 4

/-- Modelled from the spec: `vertex_offset(dir, nx)` of spec section 4.B
(GetBlockVertexOffset, not under src/).  For a stored direction it is the
direction index itself; for the four mirrored directions it is the opposite
direction's index plus the linear offset of the neighbouring block scaled by
the four slots per block. -/
def getBlockVertexOffset (d : PathDir) (nx : ℕ) : ℤ :=
  if dirIdx d < 4 then (dirIdx d : ℤ)
  else (dirIdx (oppositeDir d) : ℤ) +
    (PATH_DIRECTION_VERTICES : ℤ) * ((dirVec d).y * (nx : ℤ) + (dirVec d).x)

/-- Row-major linearization of block coordinates
(`block_pos_to_idx(bx, bz) = bz * nx + bx`, spec section 4.A and
BlockPosToIdx in the source's base class). -/
def blockPosToIdx (nx : ℕ) (b : Int2) : ℤ := b.y * (nx : ℤ) + b.x

/-- Index into the flat vertex-cost array as computed by TestBlock
(PathEstimator.cpp lines 595-598): move class base, then the parent block's
slots, then the direction offset. -/
def vertexNbrLookup (numBlocks nx pathType : ℕ) (parentIdx : ℤ) (d : PathDir) : ℤ :=
  (pathType : ℤ) * (numBlocks : ℤ) * (PATH_DIRECTION_VERTICES : ℤ) +
    parentIdx * (PATH_DIRECTION_VERTICES : ℤ) + getBlockVertexOffset d nx

/-- The vertex-cost lookup used by the search: read the flat table at the
TestBlock index for block `b` and direction `d`. -/
def lookupVertexCost (vcosts : ℤ → ℚ) (nx nz pathType : ℕ) (b : Int2) (d : PathDir) : ℚ :=
  vcosts (vertexNbrLookup (nx * nz) nx pathType (blockPosToIdx nx b) d)

/-- Block coordinates lie inside the `nx` by `nz` block grid. -/
def blockInMap (nx nz : ℕ) (b : Int2) : Prop :=
  0 ≤ b.x ∧ b.x < (nx : ℤ) ∧ 0 ≤ b.y ∧ b.y < (nz : ℤ)

instance (nx nz : ℕ) (b : Int2) : Decidable (blockInMap nx nz b) := by
  unfold blockInMap; infer_instance

/-- Terrain and structure-blocking queries consumed by FindOffset for one
move class (spec section 6): CMoveMath::GetPosSpeedMod and the three
IsBlockedStructure variants.  The `floatMax` field stands for the float
maximum used to initialise the best cost. -/
structure TerrainEnv where
  speedMod : ℤ → ℤ → ℚ
  blockedStructure : ℤ → ℤ → Bool
  blockedStructureXmax : ℤ → ℤ → Bool
  blockedStructureZmax : ℤ → ℤ → Bool
  floatMax : ℚ

/-- Loop state of FindOffset (PathEstimator.cpp lines 231-236): current best
local position, its cost, and the incrementally maintained speed modifier
and blocked flag. -/
structure FOState where
  bestPosX : ℕ
  bestPosZ : ℕ
  bestCost : ℚ
  speedMod : ℚ
  curblock : Bool
  deriving DecidableEq, Repr

/-- Body of the inner x-loop of FindOffset (lines 242-260): score the scan
position with the carried speed modifier if the carried blocked flag is
clear, then refresh both from the square at the scan position. -/
def foVisit (t : TerrainEnv) (lowerX lowerZ : ℤ) (blockSize blockArea : ℕ)
    (z x : ℕ) (s : FOState) : FOState :=
  let s1 :=
    if s.curblock then s
    else
      let dx : ℚ := (x : ℚ) - ((blockSize : ℚ) - 1) / 2
      let dz : ℚ := (z : ℚ) - ((blockSize : ℚ) - 1) / 2
      let cost : ℚ := dx * dx + dz * dz + (blockArea : ℚ) / (1 / 1000 + s.speedMod)
      if cost < s.bestCost then { s with bestPosX := x, bestPosZ := z, bestCost := cost } else s
  let sm := t.speedMod (lowerX + (x : ℤ)) (lowerZ + (z : ℤ))
  let cb := decide (sm = 0) ||
    (if s1.curblock then t.blockedStructure (lowerX + (x : ℤ)) (lowerZ + (z : ℤ))
     else t.blockedStructureXmax (lowerX + (x : ℤ)) (lowerZ + (z : ℤ)))
  { s1 with speedMod := sm, curblock := cb }

/-- Body of the outer z-loop of FindOffset (lines 239-266): remember the
blocked flag at the start of the row, run the x-loop, then refresh the speed
modifier and blocked flag from the first square of the current row. -/
def foRow (t : TerrainEnv) (lowerX lowerZ : ℤ) (blockSize blockArea : ℕ)
    (z : ℕ) (s : FOState) : FOState :=
  let zcurblock := s.curblock
  let s1 := (List.range blockSize).foldl
    (fun acc x => foVisit t lowerX lowerZ blockSize blockArea z x acc) s
  let sm := t.speedMod lowerX (lowerZ + (z : ℤ))
  let cb := decide (sm = 0) ||
    (if zcurblock then t.blockedStructure lowerX (lowerZ + (z : ℤ))
     else t.blockedStructureZmax lowerX (lowerZ + (z : ℤ)))
  { s1 with speedMod := sm, curblock := cb }

/-- CPathEstimator::FindOffset (PathEstimator.cpp lines 224-270): find a
representative square for the given block, returning absolute fine-map
coordinates. -/
def findOffset (t : TerrainEnv) (blockSize squareSize : ℕ) (blockX blockZ : ℕ) : ℕ × ℕ :=
  let lowerX : ℤ := (blockX * blockSize : ℕ)
  let lowerZ : ℤ := (blockZ * blockSize : ℕ)
  let blockArea := blockSize * blockSize / squareSize
  let sm0 := t.speedMod lowerX lowerZ
  let s0 : FOState :=
    ⟨blockSize / 2, blockSize / 2, t.floatMax, sm0,
      decide (sm0 = 0) || t.blockedStructure lowerX lowerZ⟩
  let sF := (List.range blockSize).foldl
    (fun acc z => foRow t lowerX lowerZ blockSize blockArea z acc) s0
  (blockX * blockSize + sF.bestPosX, blockZ * blockSize + sF.bestPosZ)

/-- Follows the spec's words (section 4.C), for comparison with `findOffset`:
scan all squares z-major then x; each square that is not blocked (zero
speed_mod or structure-blocked, both evaluated at that very square) is
scored `(x-c)^2 + (z-c)^2 + blockArea/(0.001 + speed_mod at that square)`;
the strictly lowest score wins, ties go to the earliest scanned square, and
the block centre is returned when no square qualifies. -/
def findOffsetSpec (t : TerrainEnv) (blockSize squareSize : ℕ) (blockX blockZ : ℕ) : ℕ × ℕ :=
  let lowerX : ℤ := (blockX * blockSize : ℕ)
  let lowerZ : ℤ := (blockZ * blockSize : ℕ)
  let blockArea := blockSize * blockSize / squareSize
  let scan := (List.range blockSize).flatMap
    (fun z => (List.range blockSize).map (fun x => (x, z)))
  let r := scan.foldl
    (fun (acc : ℕ × ℕ × ℚ) p =>
      let sm := t.speedMod (lowerX + (p.1 : ℤ)) (lowerZ + (p.2 : ℤ))
      if decide (sm = 0) || t.blockedStructure (lowerX + (p.1 : ℤ)) (lowerZ + (p.2 : ℤ)) then acc
      else
        let dx : ℚ := (p.1 : ℚ) - ((blockSize : ℚ) - 1) / 2
        let dz : ℚ := (p.2 : ℚ) - ((blockSize : ℚ) - 1) / 2
        let cost : ℚ := dx * dx + dz * dz + (blockArea : ℚ) / (1 / 1000 + sm)
        if cost < acc.2.2 then (p.1, p.2, cost) else acc)
    (blockSize / 2, blockSize / 2, t.floatMax)
  (blockX * blockSize + r.1, blockZ * blockSize + r.2.1)

/-- Concrete terrain for the FindOffset divergence: one move class, uniform
speed 1, no structures, except square (1,1) which has speed 0. -/
def terrainC5 : TerrainEnv where
  speedMod := fun x z => if x = 1 ∧ z = 1 then 0 else 1
  blockedStructure := fun _ _ => false
  blockedStructureXmax := fun _ _ => false
  blockedStructureZmax := fun _ _ => false
  floatMax := 10 ^ 10

/-- The best position tracked by the FindOffset loop stays inside the block. -/
def foInvariant (blockSize : ℕ) (s : FOState) : Prop :=
  s.bestPosX < blockSize ∧ s.bestPosZ < blockSize

/-- Terrain with no traversable square at all (speed modifier zero
everywhere), exercising the FindOffset fallback. -/
def terrainZero : TerrainEnv where
  speedMod := fun _ _ => 0
  blockedStructure := fun _ _ => false
  blockedStructureXmax := fun _ _ => false
  blockedStructureZmax := fun _ _ => false
  floatMax := 10 ^ 10

/-- Conversion from the pair returned by `findOffset` to the stored `int2`. -/
def int2OfPair (p : ℕ × ℕ) : Int2 := ⟨(p.1 : ℤ), (p.2 : ℤ)⟩

/-- Pointwise write into the per-block, per-move-class offset table
(`blockStates.peNodeOffsets[idx][md] = v`). -/
def update2 (tbl : ℤ → ℕ → Int2) (i : ℤ) (m : ℕ) (v : Int2) : ℤ → ℕ → Int2 :=
  fun j k => if j = i ∧ k = m then v else tbl j k

/-- Collaborator interface of CalculateVertex for one move class (spec
section 6): start-square structure blocking (CMoveMath::IsBlocked masked
with BLOCK_STRUCTURE), goal blocking through the rectangular constraint
(pfDef.GoalIsBlocked, a function of both endpoint squares), and the
constrained fine path search (CPathFinder::GetPath), returning the path cost
when the result is Ok and nothing otherwise. -/
structure VertexEnv where
  nx : ℕ
  nz : ℕ
  infinityCost : ℚ
  strtBlocked : Int2 → Bool
  goalBlocked : Int2 → Int2 → Bool
  finePath : Int2 → Int2 → Option ℚ

/-- Index of the stored vertex slot written by CalculateVertex
(PathEstimator.cpp lines 298-301). -/
def cvVertexNbr (env : VertexEnv) (pathType : ℕ) (parentBlock : Int2) (dir : PathDir) : ℤ :=
  (pathType : ℤ) * ((env.nx * env.nz : ℕ) : ℤ) * (PATH_DIRECTION_VERTICES : ℤ) +
    blockPosToIdx env.nx parentBlock * (PATH_DIRECTION_VERTICES : ℤ) + (dirIdx dir : ℤ)

/-- CPathEstimator::CalculateVertex (PathEstimator.cpp lines 289-349):
store the cost of the edge leaving `parentBlock` in direction `dir` into the
flat vertex-cost table, reading the representative squares from `offsets`. -/
def calculateVertex (env : VertexEnv) (offsets : ℤ → Int2) (vcosts : ℤ → ℚ)
    (pathType : ℕ) (parentBlock : Int2) (dir : PathDir) : ℤ → ℚ :=
  let childBlock := parentBlock + dirVec dir
  let vertexNbr := cvVertexNbr env pathType parentBlock dir
  if childBlock.x < 0 ∨ (env.nx : ℤ) ≤ childBlock.x ∨
      childBlock.y < 0 ∨ (env.nz : ℤ) ≤ childBlock.y then
    Function.update vcosts vertexNbr env.infinityCost
  else
    let parentSquare := offsets (blockPosToIdx env.nx parentBlock)
    let childSquare := offsets (blockPosToIdx env.nx childBlock)
    if env.strtBlocked parentSquare || env.goalBlocked parentSquare childSquare then
      Function.update vcosts vertexNbr env.infinityCost
    else
      match env.finePath parentSquare childSquare with
      | some cost => Function.update vcosts vertexNbr cost
      | none => Function.update vcosts vertexNbr env.infinityCost

/-- CPathEstimator::CalculateVertices (lines 276-283): the four stored
directions of one block. -/
def calculateVertices (env : VertexEnv) (offsets : ℤ → Int2) (vcosts : ℤ → ℚ)
    (pathType : ℕ) (block : Int2) : ℤ → ℚ :=
  let v1 := calculateVertex env offsets vcosts pathType block .left
  let v2 := calculateVertex env offsets v1 pathType block .leftUp
  let v3 := calculateVertex env offsets v2 pathType block .up
  calculateVertex env offsets v3 pathType block .rightUp

/-- Modelled from the spec: the per-block node mask of PathConstants.h (not
under src/), as a record instead of a packed bit set: three bits encoding
the arrival direction plus the OPEN, CLOSED, BLOCKED and OBSOLETE flags
(spec section 3 and glossary). -/
structure NodeMask where
  dirBits : ℕ
  opened : Bool
  closed : Bool
  blocked : Bool
  obsolete : Bool
  deriving DecidableEq, Repr

/-- Set the BLOCKED flag (`mask |= PATHOPT_BLOCKED`). -/
def NodeMask.setBlockedBit (m : NodeMask) : NodeMask := { m with blocked := true }

/-- Set the CLOSED flag (`mask |= PATHOPT_CLOSED`). -/
def NodeMask.setClosedBit (m : NodeMask) : NodeMask := { m with closed := true }

/-- Set the OBSOLETE flag (`mask |= PATHOPT_OBSOLETE`). -/
def NodeMask.setObsoleteBit (m : NodeMask) : NodeMask := { m with obsolete := true }

/-- Clear the OBSOLETE flag (`mask &= ~PATHOPT_OBSOLETE`). -/
def NodeMask.clearObsoleteBit (m : NodeMask) : NodeMask := { m with obsolete := false }

/-- Clear the arrival-direction bits (`mask &= ~PATHOPT_CARDINALS`). -/
def NodeMask.clearCardinals (m : NodeMask) : NodeMask := { m with dirBits := 0 }

/-- Mark OPEN with the arrival direction (`mask |= (pathDir | PATHOPT_OPEN)`). -/
def NodeMask.setOpenDir (d : PathDir) (m : NodeMask) : NodeMask :=
  { m with dirBits := m.dirBits ||| dirIdx d, opened := true }

/-- Modelled from the spec: PathDir2PathOpt (not under src/), the arrival
direction as stored in the mask's three direction bits. -/
def pathDir2PathOpt (d : PathDir) : ℕ := dirIdx d

/-- An entry of the open-block queue (PathNode of the search). -/
structure PathNode where
  fCost : ℚ
  gCost : ℚ
  nodePos : Int2
  nodeNum : ℤ
  deriving DecidableEq, Repr

/-- Read-only context of DoSearch and TestBlock: grid dimensions, the
precomputed tables, and the goal definition, flow-cost and extra-cost
collaborators (spec section 6). -/
structure SearchEnv where
  nx : ℕ
  nz : ℕ
  blockSize : ℕ
  pathType : ℕ
  vertexCosts : ℤ → ℚ
  peNodeOffsets : ℤ → Int2
  infinityCost : ℚ
  isGoal : ℤ → ℤ → Bool
  heuristic : ℤ → ℤ → ℚ
  withinConstraints : ℤ → ℤ → Bool
  goalSqrOffset : Int2
  flowCost : ℤ → ℤ → ℕ → ℚ
  extraCost : ℤ → ℤ → Bool → ℚ
  maxBlocksToBeSearched : ℕ

/-- Mutable search state: the per-block tables of blockStates, the open
queue and buffer, the dirty-block list, the best-heuristic goal candidate
and the tested-blocks counter. -/
structure SearchState where
  nodeMask : ℤ → NodeMask
  fCostArr : ℤ → ℚ
  gCostArr : ℤ → ℚ
  peParentNodePos : ℤ → Int2
  openBlocks : List PathNode
  openBufferSize : ℕ
  dirtyBlocks : List ℤ
  maxCostF : ℚ
  maxCostG : ℚ
  mGoalBlockIdx : ℤ
  mGoalHeuristic : ℚ
  testedBlocks : ℕ

/-- The `testedBlocks++` at the top of TestBlock (line 578). -/
def bumpTested (st : SearchState) : SearchState :=
  { st with testedBlocks := st.testedBlocks + 1 }

/-- Child block coordinates tested by TestBlock (line 581). -/
def tbChildBlock (parent : PathNode) (d : PathDir) : Int2 := parent.nodePos + dirVec d

/-- Linear index of the tested child block (line 582). -/
def tbChildIdx (env : SearchEnv) (parent : PathNode) (d : PathDir) : ℤ :=
  blockPosToIdx env.nx (tbChildBlock parent d)

/-- Vertex-cost index used by TestBlock (lines 595-598). -/
def tbVertexIdx (env : SearchEnv) (parent : PathNode) (d : PathDir) : ℤ :=
  vertexNbrLookup (env.nx * env.nz) env.nx env.pathType parent.nodeNum d

/-- Representative square of the tested child block (line 593). -/
def tbSquare (env : SearchEnv) (parent : PathNode) (d : PathDir) : Int2 :=
  env.peNodeOffsets (tbChildIdx env parent d)

/-- Node cost of the tested block (lines 613-615): vertex cost plus flow
cost plus extra cost at the child's representative square. -/
def tbNodeCost (env : SearchEnv) (parent : PathNode) (d : PathDir) (synced : Bool) : ℚ :=
  env.vertexCosts (tbVertexIdx env parent d) +
    env.flowCost (tbSquare env parent d).x (tbSquare env parent d).y (pathDir2PathOpt d) +
    env.extraCost (tbSquare env parent d).x (tbSquare env parent d).y synced

/-- Accumulated cost of the tested block (line 617). -/
def tbGCost (env : SearchEnv) (parent : PathNode) (d : PathDir) (synced : Bool) : ℚ :=
  parent.gCost + tbNodeCost env parent d synced

/-- Heuristic of the tested block's representative square (line 618). -/
def tbHCost (env : SearchEnv) (parent : PathNode) (d : PathDir) : ℚ :=
  env.heuristic (tbSquare env parent d).x (tbSquare env parent d).y

/-- Estimated total cost of the tested block (line 619). -/
def tbFCost (env : SearchEnv) (parent : PathNode) (d : PathDir) (synced : Bool) : ℚ :=
  tbGCost env parent d synced + tbHCost env parent d

/-- CPathEstimator::TestBlock (PathEstimator.cpp lines 567-657): test the
accessibility of the neighbour of `parent` in direction `d` and possibly
open it.  Returns the C++ boolean result together with the updated state. -/
def testBlock (env : SearchEnv) (st0 : SearchState) (parent : PathNode) (d : PathDir)
    (synced : Bool) : Bool × SearchState :=
  let st := bumpTested st0
  if (tbChildBlock parent d).x < 0 ∨ (env.nx : ℤ) ≤ (tbChildBlock parent d).x then (false, st)
  else if (tbChildBlock parent d).y < 0 ∨ (env.nz : ℤ) ≤ (tbChildBlock parent d).y then (false, st)
  else if (st.nodeMask (tbChildIdx env parent d)).blocked ||
      (st.nodeMask (tbChildIdx env parent d)).closed then (false, st)
  else if env.infinityCost ≤ env.vertexCosts (tbVertexIdx env parent d) then (false, st)
  else if env.withinConstraints (tbSquare env parent d).x (tbSquare env parent d).y = false then
    (false, { st with
      nodeMask := (Function.update st.nodeMask (tbChildIdx env parent d)
        ((st.nodeMask (tbChildIdx env parent d)).setBlockedBit)),
      dirtyBlocks := st.dirtyBlocks ++ [tbChildIdx env parent d] })
  else
    let fCost := tbFCost env parent d synced
    let gCost := tbGCost env parent d synced
    let hCost := tbHCost env parent d
    if (st.nodeMask (tbChildIdx env parent d)).opened &&
        decide (st.fCostArr (tbChildIdx env parent d) ≤ fCost) then (true, st)
    else
      let st1 :=
        if (st.nodeMask (tbChildIdx env parent d)).opened then
          { st with nodeMask := (Function.update st.nodeMask (tbChildIdx env parent d)
              ((st.nodeMask (tbChildIdx env parent d)).clearCardinals)) }
        else st
      let st2 :=
        if hCost < st1.mGoalHeuristic then
          { st1 with mGoalBlockIdx := tbChildIdx env parent d, mGoalHeuristic := hCost }
        else st1
      (true, { st2 with
        openBufferSize := st2.openBufferSize + 1,
        openBlocks := st2.openBlocks ++ [⟨fCost, gCost, tbChildBlock parent d, tbChildIdx env parent d⟩],
        maxCostF := max st2.maxCostF fCost,
        maxCostG := max st2.maxCostG gCost,
        fCostArr := (Function.update st2.fCostArr (tbChildIdx env parent d) fCost),
        gCostArr := (Function.update st2.gCostArr (tbChildIdx env parent d) gCost),
        nodeMask := (Function.update st2.nodeMask (tbChildIdx env parent d)
          ((st2.nodeMask (tbChildIdx env parent d)).setOpenDir d)),
        peParentNodePos := (Function.update st2.peParentNodePos (tbChildIdx env parent d)
          parent.nodePos),
        dirtyBlocks := st2.dirtyBlocks ++ [tbChildIdx env parent d] })

/-- Pop an element with the least fCost from the open queue, the earliest
inserted among equals (the C++ priority queue's pop; any pop policy yields
the same classification results). -/
def popMin : List PathNode → Option (PathNode × List PathNode)
  | [] => none
  | n :: rest =>
    match popMin rest with
    | none => some (n, rest)
    | some (m, rest2) => if n.fCost ≤ m.fCost then some (n, rest) else some (m, n :: rest2)

/-- Goal test of DoSearch (lines 517-522): the popped block's representative
square, or its goal-offset square, satisfies the goal predicate. -/
def goalReached (env : SearchEnv) (ob : PathNode) : Bool :=
  env.isGoal (env.peNodeOffsets ob.nodeNum).x (env.peNodeOffsets ob.nodeNum).y ||
    env.isGoal (ob.nodePos.x * (env.blockSize : ℤ) + env.goalSqrOffset.x)
      (ob.nodePos.y * (env.blockSize : ℤ) + env.goalSqrOffset.y)

/-- Expansion step of DoSearch (lines 529-542): test all eight neighbours of
the popped block, then mark it CLOSED. -/
def expandBlock (env : SearchEnv) (st : SearchState) (ob : PathNode) (synced : Bool) :
    SearchState :=
  let s1 := (testBlock env st ob .left synced).2
  let s2 := (testBlock env s1 ob .leftUp synced).2
  let s3 := (testBlock env s2 ob .up synced).2
  let s4 := (testBlock env s3 ob .rightUp synced).2
  let s5 := (testBlock env s4 ob .right synced).2
  let s6 := (testBlock env s5 ob .rightDown synced).2
  let s7 := (testBlock env s6 ob .down synced).2
  let s8 := (testBlock env s7 ob .leftDown synced).2
  { s8 with nodeMask := (Function.update s8.nodeMask ob.nodeNum
      ((s8.nodeMask ob.nodeNum).setClosedBit)) }

/-- IPath::SearchResult. -/
inductive SearchResult where
  | ok
  | cantGetCloser
  | goalOutOfRange
  | err
  deriving DecidableEq, Repr

/-- Loop of CPathEstimator::DoSearch (lines 507-543), with explicit fuel for
the C++ while-loop (`none` means the fuel ran out mid-loop).  Returns the
foundGoal flag, the final state and the list of popped open blocks that
reached the goal test. -/
def doSearchLoop (env : SearchEnv) (synced : Bool) :
    ℕ → SearchState → Option (Bool × SearchState × List PathNode)
  | 0, _ => none
  | fuel + 1, st =>
    if st.openBlocks = [] ∨ env.maxBlocksToBeSearched ≤ st.openBufferSize then
      some (false, st, [])
    else
      match popMin st.openBlocks with
      | none => some (false, st, [])
      | some (ob, rest) =>
        let st1 := { st with openBlocks := rest }
        if (st1.nodeMask ob.nodeNum).blocked || (st1.nodeMask ob.nodeNum).closed then
          doSearchLoop env synced fuel st1
        else if goalReached env ob then
          some (true, { st1 with mGoalBlockIdx := ob.nodeNum, mGoalHeuristic := 0 }, [ob])
        else
          match doSearchLoop env synced fuel (expandBlock env st1 ob synced) with
          | none => none
          | some (found, st2, ex) => some (found, st2, ob :: ex)

/-- CPathEstimator::DoSearch (lines 500-560): run the loop, then classify
the outcome exactly as the post-loop returns do. -/
def doSearch (env : SearchEnv) (synced : Bool) (fuel : ℕ) (st : SearchState) :
    Option (SearchResult × SearchState × List PathNode) :=
  match doSearchLoop env synced fuel st with
  | none => none
  | some (found, st1, ex) =>
    if found then some (.ok, st1, ex)
    else if env.maxBlocksToBeSearched ≤ st1.openBufferSize then some (.goalOutOfRange, st1, ex)
    else if st1.openBlocks = [] then some (.goalOutOfRange, st1, ex)
    else some (.err, st1, ex)

/-- Concrete vertex-calculation environment for witnesses: a 2 by 2 block
grid, nothing blocked, fine searches succeeding with cost 5. -/
def vertexEnvW : VertexEnv where
  nx := 2
  nz := 2
  infinityCost := 1000000
  strtBlocked := fun _ => false
  goalBlocked := fun _ _ => false
  finePath := fun _ _ => some 5

/-- Concrete search environment for witnesses: a 2 by 2 block grid with a
zero-cost vertex table, no goal anywhere, and no constraints. -/
def searchEnvW : SearchEnv where
  nx := 2
  nz := 2
  blockSize := 8
  pathType := 0
  vertexCosts := fun _ => 0
  peNodeOffsets := fun _ => ⟨0, 0⟩
  infinityCost := 1000000
  isGoal := fun _ _ => false
  heuristic := fun _ _ => 0
  withinConstraints := fun _ _ => true
  goalSqrOffset := ⟨0, 0⟩
  flowCost := fun _ _ _ => 0
  extraCost := fun _ _ _ => 0
  maxBlocksToBeSearched := 8

/-- Fully reset search state: clear masks, zero costs, empty queues. -/
def searchStateEmpty : SearchState where
  nodeMask := fun _ => ⟨0, false, false, false, false⟩
  fCostArr := fun _ => 0
  gCostArr := fun _ => 0
  peParentNodePos := fun _ => ⟨0, 0⟩
  openBlocks := []
  openBufferSize := 0
  dirtyBlocks := []
  maxCostF := 0
  maxCostG := 0
  mGoalBlockIdx := 0
  mGoalHeuristic := 0
  testedBlocks := 0

/-- Concrete parent open block for witnesses: block (0,0) with zero costs. -/
def parentW : PathNode := ⟨0, 0, ⟨0, 0⟩, 0⟩

/-- Truncation toward zero of a rational, the C++ float-to-int conversion. -/
def ctrunc (q : ℚ) : ℤ := if 0 ≤ q then ⌊q⌋ else -⌊-q⌋

/-- Clamp a value into `[lo, hi]` (the engine's Clamp utility, not under
src/; for every use in this file `lo ≤ hi`, where both operand orders
agree). -/
def clampI (v lo hi : ℤ) : ℤ := max lo (min v hi)

/-- Context of MapChanged and Update: grid and block dimensions, the
SQUARES_TO_UPDATE constant (PathConstants.h, not under src/), the move-class
registry (count, nonzero-refcount flags), the configured update rate, and
the per-move-class terrain and vertex-calculation collaborators. -/
structure UpdateEnv where
  nx : ℕ
  nz : ℕ
  blockSize : ℕ
  squareSize : ℕ
  squaresToUpdate : ℕ
  numMoveDefs : ℕ
  activeMd : ℕ → Bool
  pfUpdateRate : ℚ
  mdTerrain : ℕ → TerrainEnv
  mdVertex : ℕ → VertexEnv

/-- BLOCKS_TO_UPDATE (PathEstimator.cpp line 51):
`SQUARES_TO_UPDATE / (BLOCK_SIZE * BLOCK_SIZE) + 1`. -/
def blocksToUpdateConst (env : UpdateEnv) : ℕ :=
  env.squaresToUpdate / (env.blockSize * env.blockSize) + 1

/-- The progressive update estimate (line 395): queue length times move-class
count, scaled by a BLOCK_SIZE factor and the update rate, truncated to int. -/
def progressiveUpdates (env : UpdateEnv) (queueLen : ℕ) : ℤ :=
  ctrunc ((queueLen : ℚ) * (env.numMoveDefs : ℚ) *
    (if 16 ≤ env.blockSize then 1 else 3 / 5) * env.pfUpdateRate)

/-- MIN_BLOCKS_TO_UPDATE (line 396): `max(BLOCKS_TO_UPDATE >> 1, 4)`. -/
def minBlocksToUpdate (env : UpdateEnv) : ℤ := max ((blocksToUpdateConst env / 2 : ℕ) : ℤ) 4

/-- MAX_BLOCKS_TO_UPDATE (line 397):
`max(BLOCKS_TO_UPDATE << 1, MIN_BLOCKS_TO_UPDATE)`. -/
def maxBlocksToUpdate (env : UpdateEnv) : ℤ :=
  max ((blocksToUpdateConst env * 2 : ℕ) : ℤ) (minBlocksToUpdate env)

/-- The pre-penalty per-tick block budget of Update (line 398). -/
def updateBudget (env : UpdateEnv) (queueLen : ℕ) : ℤ :=
  clampI (progressiveUpdates env queueLen) (minBlocksToUpdate env) (maxBlocksToUpdate env)

/-- Mutable state of the incremental update engine: the obsolete FIFO, the
node masks, the offset and vertex tables, and the penalty carry. -/
structure UpState where
  updatedBlocks : List Int2
  nodeMask : ℤ → NodeMask
  peNodeOffsets : ℤ → ℕ → Int2
  vertexCosts : ℤ → ℚ
  blockUpdatePenalty : ℤ

/-- Descending integer range `[hi, hi-1, ..., lo]`. -/
def descRange (lo hi : ℤ) : List ℤ :=
  (List.range (hi + 1 - lo).toNat).map (fun (i : ℕ) => hi - (i : ℤ))

/-- Block positions visited by MapChanged (lines 357-369): the fine-square
rectangle converted to clamped block coordinates, traversed from upper to
lower in z and x. -/
def mcPositions (env : UpdateEnv) (x1 z1 x2 z2 : ℕ) : List Int2 :=
  let lowerX : ℤ := clampI ((min x1 x2 / env.blockSize : ℕ) : ℤ) 0 ((env.nx : ℤ) - 1)
  let upperX : ℤ := clampI ((max x1 x2 / env.blockSize : ℕ) : ℤ) 0 ((env.nx : ℤ) - 1)
  let lowerZ : ℤ := clampI ((min z1 z2 / env.blockSize : ℕ) : ℤ) 0 ((env.nz : ℤ) - 1)
  let upperZ : ℤ := clampI ((max z1 z2 / env.blockSize : ℕ) : ℤ) 0 ((env.nz : ℤ) - 1)
  (descRange lowerZ upperZ).flatMap (fun z => (descRange lowerX upperX).map (fun x => ⟨x, z⟩))

/-- Per-block body of MapChanged (lines 370-376): skip blocks already
OBSOLETE, otherwise enqueue and mark. -/
def mcStep (env : UpdateEnv) (st : UpState) (pos : Int2) : UpState :=
  if (st.nodeMask (blockPosToIdx env.nx pos)).obsolete then st
  else { st with
    updatedBlocks := st.updatedBlocks ++ [pos],
    nodeMask := (Function.update st.nodeMask (blockPosToIdx env.nx pos)
      ((st.nodeMask (blockPosToIdx env.nx pos)).setObsoleteBit)) }

/-- CPathEstimator::MapChanged (lines 355-378). -/
def mapChanged (env : UpdateEnv) (x1 z1 x2 z2 : ℕ) (st : UpState) : UpState :=
  (mcPositions env x1 z1 x2 z2).foldl (mcStep env) st

/-- The move classes with a nonzero unit reference count, in ascending
pathType order (Update's inner loop, lines 441-445). -/
def mdsList (env : UpdateEnv) : List ℕ :=
  (List.range env.numMoveDefs).filter env.activeMd

/-- SingleBlock entries added for one drained block: one per active move
class, ascending. -/
def mdEntries (env : UpdateEnv) (pos : Int2) : List (Int2 × ℕ) :=
  (mdsList env).map (fun i => (pos, i))

/-- Drain loop of Update (lines 426-447): pop blocks whose OBSOLETE bit was
cleared, stop before a block when the consumed-entry count has reached the
budget, otherwise append the block's per-class entries and pop it. -/
def drainLoop (env : UpdateEnv) (cap : ℤ) (mask : ℤ → NodeMask) :
    List Int2 → List (Int2 × ℕ) → (List (Int2 × ℕ) × List Int2)
  | [], consumed => (consumed, [])
  | pos :: rest, consumed =>
    if (mask (blockPosToIdx env.nx pos)).obsolete = false then
      drainLoop env cap mask rest consumed
    else if cap ≤ (consumed.length : ℤ) then (consumed, pos :: rest)
    else drainLoop env cap mask rest (consumed ++ mdEntries env pos)

/-- Parallel offset phase of Update (lines 450-459): recompute the offset of
every consumed entry (embedded sequentially; FindOffset is pure, so the
for_mt order is immaterial). -/
def offsetsPhase (env : UpdateEnv) (entries : List (Int2 × ℕ)) (st : UpState) : UpState :=
  entries.foldl
    (fun acc e =>
      { acc with peNodeOffsets := (update2 acc.peNodeOffsets (blockPosToIdx env.nx e.1) e.2
          (int2OfPair (findOffset (env.mdTerrain e.2) env.blockSize env.squareSize
            e.1.x.toNat e.1.y.toNat))) })
    st

/-- End-of-run detection of Update's serial phase (lines 469 and 477): the
next entry is absent or its pathType is at most the current one. -/
def nextClears : List (Int2 × ℕ) → ℕ → Bool
  | [], _ => true
  | (_, md2) :: _, md => decide (md2 ≤ md)

/-- Serial vertex phase of Update (lines 462-481): recompute the four stored
vertices of each consumed entry in order, clearing the block's OBSOLETE bit
at the end of its run. -/
def serialPhase (env : UpdateEnv) : List (Int2 × ℕ) → UpState → UpState
  | [], st => st
  | (pos, md) :: rest, st =>
    let st1 := { st with vertexCosts := (calculateVertices (env.mdVertex md)
        (fun idx => st.peNodeOffsets idx md) st.vertexCosts md pos) }
    let st2 :=
      if nextClears rest md then
        { st1 with nodeMask := (Function.update st1.nodeMask (blockPosToIdx env.nx pos)
            ((st1.nodeMask (blockPosToIdx env.nx pos)).clearObsoleteBit)) }
      else st1
    serialPhase env rest st2

/-- Tail of CPathEstimator::Update after the budget block (lines 411-482):
early returns, the drain loop, the parallel offset phase and the serial
vertex phase, given the post-penalty budget `b2` and the new penalty. -/
def updateRun (env : UpdateEnv) (st : UpState) (b2 pen2 : ℤ) : UpState × List (Int2 × ℕ) :=
  if b2 = 0 then ({ st with blockUpdatePenalty := pen2 }, [])
  else if st.updatedBlocks = [] then ({ st with blockUpdatePenalty := pen2 }, [])
  else
    let dr := drainLoop env b2 st.nodeMask st.updatedBlocks []
    let st1 : UpState := { st with updatedBlocks := dr.2, blockUpdatePenalty := pen2 }
    let st2 := offsetsPhase env dr.1 st1
    (serialPhase env dr.1 st2, dr.1)

/-- CPathEstimator::Update (lines 384-482): budget and penalty arithmetic
(lines 392-409), then the run over the drained blocks.  Returns the new
state together with the consumed entries. -/
def update (env : UpdateEnv) (st : UpState) : UpState × List (Int2 × ℕ) :=
  let progressive := progressiveUpdates env st.updatedBlocks.length
  let b1 := updateBudget env st.updatedBlocks.length
  let pen1 := max 0 (st.blockUpdatePenalty - b1)
  let b2 := if 0 < pen1 then max 0 (b1 - pen1) else b1
  let consume := (if progressive ≠ 0 then 1 else 0) *
    ⌈(b2 : ℚ) / (env.numMoveDefs : ℚ)⌉ * (env.numMoveDefs : ℤ)
  let pen2 := pen1 + consume
  updateRun env st b2 pen2

/-- The obsolete-queue invariant (spec section 3): the FIFO has no
duplicates, holds only in-map blocks, and an in-map block is in it exactly
when its OBSOLETE bit is set. -/
def QInv (env : UpdateEnv) (st : UpState) : Prop :=
  st.updatedBlocks.Nodup ∧
  (∀ pos ∈ st.updatedBlocks, blockInMap env.nx env.nz pos) ∧
  (∀ pos, blockInMap env.nx env.nz pos →
    (pos ∈ st.updatedBlocks ↔ (st.nodeMask (blockPosToIdx env.nx pos)).obsolete = true))

/-- Whether the serial phase run over the given entries clears the OBSOLETE
bit of block index `j`: some entry at `j` is the end of its block's run. -/
def clearsAtIdx (env : UpdateEnv) : List (Int2 × ℕ) → ℤ → Bool
  | [], _ => false
  | (pos, md) :: rest, j =>
    (decide (blockPosToIdx env.nx pos = j) && nextClears rest md) || clearsAtIdx env rest j

/-- Update-engine state with an empty queue, clear masks and zero tables. -/
def upStateEmpty : UpState where
  updatedBlocks := []
  nodeMask := fun _ => ⟨0, false, false, false, false⟩
  peNodeOffsets := fun _ _ => ⟨0, 0⟩
  vertexCosts := fun _ => 0
  blockUpdatePenalty := 0

/-- Concrete update environment for the C8 budget computation:
BLOCK_SIZE 32 with SQUARES_TO_UPDATE 600, so BLOCKS_TO_UPDATE is 1. -/
def updateEnvC8 : UpdateEnv where
  nx := 16
  nz := 16
  blockSize := 32
  squareSize := 8
  squaresToUpdate := 600
  numMoveDefs := 1
  activeMd := fun _ => true
  pfUpdateRate := 1
  mdTerrain := fun _ => terrainZero
  mdVertex := fun _ => vertexEnvW

/-- Program counter of a precompute worker in CalcOffsetsAndPathCosts
(PathEstimator.cpp lines 149-175): inside the phase-1 claim loop, computing
one block's offsets, waiting at the barrier, inside the phase-2 claim loop,
computing one block's vertex costs, or finished. -/
inductive WorkerPc where
  | loop1
  | comp1 (b : ℤ)
  | atBarrier
  | loop2
  | comp2 (b : ℤ)
  | done
  deriving DecidableEq, Repr

/-- Shared state of the precompute driver with `n` workers: the two shared
claim counters (offsetBlockNum, costBlockNum), each worker's program
counter, and which blocks have had their offsets (phase 1) and vertex costs
(phase 2) written. -/
structure PreState (n : ℕ) where
  offCnt : ℤ
  costCnt : ℤ
  pc : Fin n → WorkerPc
  offWritten : ℤ → Bool
  costWritten : ℤ → Bool

/-- Initial precompute state over `nb` blocks: both counters at the block
count (lines 55-56), all workers entering phase 1, nothing written. -/
def preInit (n nb : ℕ) : PreState n :=
  ⟨(nb : ℤ), (nb : ℤ), fun _ => .loop1, fun _ => false, fun _ => false⟩

/-- A worker has left the phase-1 loop (at the barrier or past it). -/
def pastLoop1 : WorkerPc → Bool
  | .loop1 => false
  | .comp1 _ => false
  | _ => true

/-- A worker has passed the barrier. -/
def pastBarrier : WorkerPc → Bool
  | .loop2 => true
  | .comp2 _ => true
  | .done => true
  | _ => false

/-- Interleaving small-step semantics of CalcOffsetsAndPathCosts (lines
165-174): each `while ((i = --counter) >= 0)` test atomically decrements
the shared counter, claiming block `maxBlockIdx - i` when the new value is
nonnegative and leaving the loop otherwise; computing a claimed block then
writing it is a separate step; the barrier (boost::barrier over all
participating workers, line 171) lets a waiting worker proceed only once
every worker has arrived at it. -/
inductive PreStep (n nb : ℕ) : PreState n → PreState n → Prop where
  | claim1 (s : PreState n) (w : Fin n) :
      s.pc w = .loop1 → 1 ≤ s.offCnt →
      PreStep n nb s { s with
        offCnt := s.offCnt - 1,
        pc := Function.update s.pc w (.comp1 ((nb : ℤ) - s.offCnt)) }
  | exit1 (s : PreState n) (w : Fin n) :
      s.pc w = .loop1 → s.offCnt ≤ 0 →
      PreStep n nb s { s with
        offCnt := s.offCnt - 1,
        pc := Function.update s.pc w .atBarrier }
  | write1 (s : PreState n) (w : Fin n) (b : ℤ) :
      s.pc w = .comp1 b →
      PreStep n nb s { s with
        offWritten := Function.update s.offWritten b true,
        pc := Function.update s.pc w .loop1 }
  | pass (s : PreState n) (w : Fin n) :
      s.pc w = .atBarrier → (∀ w2, pastLoop1 (s.pc w2) = true) →
      PreStep n nb s { s with pc := Function.update s.pc w .loop2 }
  | claim2 (s : PreState n) (w : Fin n) :
      s.pc w = .loop2 → 1 ≤ s.costCnt →
      PreStep n nb s { s with
        costCnt := s.costCnt - 1,
        pc := Function.update s.pc w (.comp2 ((nb : ℤ) - s.costCnt)) }
  | exit2 (s : PreState n) (w : Fin n) :
      s.pc w = .loop2 → s.costCnt ≤ 0 →
      PreStep n nb s { s with
        costCnt := s.costCnt - 1,
        pc := Function.update s.pc w .done }
  | write2 (s : PreState n) (w : Fin n) (b : ℤ) :
      s.pc w = .comp2 b →
      PreStep n nb s { s with
        costWritten := Function.update s.costWritten b true,
        pc := Function.update s.pc w .loop2 }

/-- States reachable from the initial precompute state. -/
def PreReachable (n nb : ℕ) (s : PreState n) : Prop :=
  Relation.ReflTransGen (PreStep n nb) (preInit n nb) s

/-- Inductive invariant of the precompute driver: once any worker has left
phase 1 the offset counter is negative (so every block has been claimed);
every claimed block is written or being computed by some worker; and once
any worker is past the barrier, every worker has left phase 1. -/
def PreInv (n nb : ℕ) (s : PreState n) : Prop :=
  ((∃ w, pastLoop1 (s.pc w) = true) → s.offCnt < 0) ∧
  (∀ b : ℤ, 0 ≤ b → b < (nb : ℤ) → b < (nb : ℤ) - s.offCnt →
    s.offWritten b = true ∨ ∃ w, s.pc w = .comp1 b) ∧
  ((∃ w, pastBarrier (s.pc w) = true) → ∀ w2, pastLoop1 (s.pc w2) = true)

/-- First intermediate state of the single-worker witness trace: the worker
claims block 0 of the single-block map. -/
def preWit1 : PreState 1 :=
  { preInit 1 1 with
    offCnt := (preInit 1 1).offCnt - 1,
    pc := Function.update (preInit 1 1).pc 0 (.comp1 (((1 : ℕ) : ℤ) - (preInit 1 1).offCnt)) }

/-- The worker writes block 0's offsets. -/
def preWit2 : PreState 1 :=
  { preWit1 with
    offWritten := Function.update preWit1.offWritten (((1 : ℕ) : ℤ) - (preInit 1 1).offCnt) true,
    pc := Function.update preWit1.pc 0 .loop1 }

/-- The worker sees the exhausted counter and reaches the barrier. -/
def preWit3 : PreState 1 :=
  { preWit2 with
    offCnt := preWit2.offCnt - 1,
    pc := Function.update preWit2.pc 0 .atBarrier }

/-- All workers have arrived, so the worker passes the barrier. -/
def preWit4 : PreState 1 :=
  { preWit3 with pc := Function.update preWit3.pc 0 .loop2 }

/-- The worker claims block 0 for the phase-2 vertex computation. -/
def preWit5 : PreState 1 :=
  { preWit4 with
    costCnt := preWit4.costCnt - 1,
    pc := Function.update preWit4.pc 0 (.comp2 (((1 : ℕ) : ℤ) - preWit4.costCnt)) }

theorem Int2.add_x (a b : Int2) : (a + b).x = a.x + b.x := rfl

theorem Int2.add_y (a b : Int2) : (a + b).y = a.y + b.y := rfl

/-- C1: Vertex-cost symmetry.  For every move class, every in-map block pair
`(a, b)` sharing an edge in direction `d`, the lookup used by the search
satisfies `vertex_cost(c, a, d) = vertex_cost(c, b, opposite(d))`: the
4-direction storage plus the mirror-offset read resolve to the same cell of
the flat table for both endpoints of the undirected edge. -/
theorem vertex_cost_symmetry (vcosts : ℤ → ℚ) (nx nz pathType : ℕ) (a : Int2) (d : PathDir)
    (ha : blockInMap nx nz a) (hb : blockInMap nx nz (a + dirVec d)) :
    lookupVertexCost vcosts nx nz pathType a d
      = lookupVertexCost vcosts nx nz pathType (a + dirVec d) (oppositeDir d) := by
  clear ha hb
  unfold lookupVertexCost vertexNbrLookup blockPosToIdx getBlockVertexOffset
  cases d <;>
    simp only [dirIdx, dirVec, oppositeDir, PATH_DIRECTION_VERTICES, Int2.add_x, Int2.add_y] <;>
    norm_num <;> ring_nf

/-- Witness for C1 at a concrete instance: blocks (1,1) and (0,1) of a
2 by 2 grid joined by the LEFT edge. -/
theorem vertex_cost_symmetry_witness :
    blockInMap 2 2 ⟨1, 1⟩ ∧ blockInMap 2 2 (⟨1, 1⟩ + dirVec .left) ∧
    lookupVertexCost (fun i => (i : ℚ)) 2 2 0 ⟨1, 1⟩ .left
      = lookupVertexCost (fun i => (i : ℚ)) 2 2 0 (⟨1, 1⟩ + dirVec .left) (oppositeDir .left) :=
  ⟨by decide, by decide,
    vertex_cost_symmetry (fun i => (i : ℚ)) 2 2 0 ⟨1, 1⟩ .left (by decide) (by decide)⟩

/-- C5 (code bug): on a 4 by 4 block whose only inaccessible square is
(1,1), the embedded FindOffset returns (1,1) itself, because the scoring
guard and the speed modifier used at each scan position are the ones
computed for the previously scanned square; the spec's scoring, where each
non-blocked square is scored with its own speed_mod, picks (2,1) instead. -/
theorem findOffset_lagged_guard_returns_blocked_square :
    findOffset terrainC5 4 4 0 0 = (1, 1) ∧
    terrainC5.speedMod 1 1 = 0 ∧
    findOffsetSpec terrainC5 4 4 0 0 = (2, 1) := by
  refine ⟨?_, by norm_num [terrainC5], ?_⟩
  · norm_num [findOffset, foRow, foVisit, terrainC5, List.range_succ]
  · norm_num [findOffsetSpec, terrainC5, List.range_succ]

/-- C9: FindOffset is a pure function of the terrain state and move class:
two environments with identical terrain answers give identical offsets, so
the duplicate recomputation scheduled by the update path overwrites the
table with the very same value. -/
theorem findOffset_deterministic (t1 t2 : TerrainEnv) (bs ss bx bz : ℕ)
    (hs : t1.speedMod = t2.speedMod)
    (hb : t1.blockedStructure = t2.blockedStructure)
    (hx : t1.blockedStructureXmax = t2.blockedStructureXmax)
    (hz : t1.blockedStructureZmax = t2.blockedStructureZmax)
    (hm : t1.floatMax = t2.floatMax) :
    findOffset t1 bs ss bx bz = findOffset t2 bs ss bx bz ∧
    ∀ (tbl : ℤ → ℕ → Int2) (i : ℤ) (m : ℕ),
      update2 (update2 tbl i m (int2OfPair (findOffset t1 bs ss bx bz))) i m
          (int2OfPair (findOffset t2 bs ss bx bz))
        = update2 tbl i m (int2OfPair (findOffset t1 bs ss bx bz)) := by
  obtain ⟨s1, b1, x1, z1, m1⟩ := t1
  obtain ⟨s2, b2, x2, z2, m2⟩ := t2
  simp only at hs hb hx hz hm
  subst hs hb hx hz hm
  refine ⟨rfl, fun tbl i m => ?_⟩
  funext j k
  unfold update2
  split <;> rfl

theorem foVisit_inv (t : TerrainEnv) (lX lZ : ℤ) (bs bA z x : ℕ) (s : FOState)
    (hx : x < bs) (hz : z < bs) (h : foInvariant bs s) :
    foInvariant bs (foVisit t lX lZ bs bA z x s) := by
  unfold foInvariant at h ⊢
  unfold foVisit
  dsimp only
  split
  · exact h
  · split
    · exact ⟨hx, hz⟩
    · exact h

theorem foldl_foVisit_inv (t : TerrainEnv) (lX lZ : ℤ) (bs bA z : ℕ) (hz : z < bs) :
    ∀ (l : List ℕ) (s : FOState), (∀ x ∈ l, x < bs) → foInvariant bs s →
      foInvariant bs (l.foldl (fun acc x => foVisit t lX lZ bs bA z x acc) s)
  | [], s, _, h => h
  | x :: l, s, hl, h => by
    simp only [List.foldl_cons]
    exact foldl_foVisit_inv t lX lZ bs bA z hz l _ (fun y hy => hl y (List.mem_cons_of_mem x hy))
      (foVisit_inv t lX lZ bs bA z x s (hl x (List.mem_cons_self x l)) hz h)

theorem foRow_inv (t : TerrainEnv) (lX lZ : ℤ) (bs bA z : ℕ) (s : FOState)
    (hz : z < bs) (h : foInvariant bs s) :
    foInvariant bs (foRow t lX lZ bs bA z s) := by
  unfold foInvariant at h ⊢
  unfold foRow
  dsimp only
  exact foldl_foVisit_inv t lX lZ bs bA z hz (List.range bs) s
    (fun x hx => List.mem_range.mp hx) h

theorem foldl_foRow_inv (t : TerrainEnv) (lX lZ : ℤ) (bs bA : ℕ) :
    ∀ (l : List ℕ) (s : FOState), (∀ z ∈ l, z < bs) → foInvariant bs s →
      foInvariant bs (l.foldl (fun acc z => foRow t lX lZ bs bA z acc) s)
  | [], s, _, h => h
  | z :: l, s, hl, h => by
    simp only [List.foldl_cons]
    exact foldl_foRow_inv t lX lZ bs bA l _ (fun y hy => hl y (List.mem_cons_of_mem z hy))
      (foRow_inv t lX lZ bs bA z s (hl z (List.mem_cons_self z l)) h)

theorem foVisit_blockedEverywhere (t : TerrainEnv) (lX lZ : ℤ) (bs bA z x : ℕ)
    (s : FOState) (h0 : ∀ a b, t.speedMod a b = 0) (h : s.curblock = true) :
    foVisit t lX lZ bs bA z x s =
      { s with speedMod := t.speedMod (lX + (x : ℤ)) (lZ + (z : ℤ)), curblock := true } := by
  unfold foVisit
  rw [if_pos h]
  simp [h0]

theorem foldl_foVisit_blockedEverywhere (t : TerrainEnv) (lX lZ : ℤ) (bs bA z : ℕ)
    (h0 : ∀ a b, t.speedMod a b = 0) :
    ∀ (l : List ℕ) (s : FOState), s.curblock = true →
      (l.foldl (fun acc x => foVisit t lX lZ bs bA z x acc) s).curblock = true ∧
      (l.foldl (fun acc x => foVisit t lX lZ bs bA z x acc) s).bestPosX = s.bestPosX ∧
      (l.foldl (fun acc x => foVisit t lX lZ bs bA z x acc) s).bestPosZ = s.bestPosZ
  | [], s, h => ⟨h, rfl, rfl⟩
  | x :: l, s, h => by
    simp only [List.foldl_cons]
    rw [foVisit_blockedEverywhere t lX lZ bs bA z x s h0 h]
    exact foldl_foVisit_blockedEverywhere t lX lZ bs bA z h0 l _ rfl

theorem foRow_blockedEverywhere (t : TerrainEnv) (lX lZ : ℤ) (bs bA z : ℕ)
    (s : FOState) (h0 : ∀ a b, t.speedMod a b = 0) (h : s.curblock = true) :
    (foRow t lX lZ bs bA z s).curblock = true ∧
    (foRow t lX lZ bs bA z s).bestPosX = s.bestPosX ∧
    (foRow t lX lZ bs bA z s).bestPosZ = s.bestPosZ := by
  unfold foRow
  dsimp only
  obtain ⟨h1, h2, h3⟩ := foldl_foVisit_blockedEverywhere t lX lZ bs bA z h0 (List.range bs) s h
  exact ⟨by simp [h0], h2, h3⟩

theorem foldl_foRow_blockedEverywhere (t : TerrainEnv) (lX lZ : ℤ) (bs bA : ℕ)
    (h0 : ∀ a b, t.speedMod a b = 0) :
    ∀ (l : List ℕ) (s : FOState), s.curblock = true →
      (l.foldl (fun acc z => foRow t lX lZ bs bA z acc) s).bestPosX = s.bestPosX ∧
      (l.foldl (fun acc z => foRow t lX lZ bs bA z acc) s).bestPosZ = s.bestPosZ
  | [], s, h => ⟨rfl, rfl⟩
  | z :: l, s, h => by
    simp only [List.foldl_cons]
    obtain ⟨h1, h2, h3⟩ := foRow_blockedEverywhere t lX lZ bs bA z s h0 h
    obtain ⟨h4, h5⟩ := foldl_foRow_blockedEverywhere t lX lZ bs bA h0 l _ h1
    exact ⟨h4.trans h2, h5.trans h3⟩

/-- C10: FindOffset returns global fine-map coordinates inside the queried
block: the result is `(bx*BS + bestX, bz*BS + bestZ)` with the best local
offsets strictly below BLOCK_SIZE; and when no square is traversable (speed
modifier zero everywhere) the returned square is the block centre, local
offset `(BS/2, BS/2)` in absolute map coordinates. -/
theorem findOffset_within_block (t : TerrainEnv) (bs ss bx bz : ℕ) (hbs : 1 ≤ bs) :
    bx * bs ≤ (findOffset t bs ss bx bz).1 ∧
    (findOffset t bs ss bx bz).1 < (bx + 1) * bs ∧
    bz * bs ≤ (findOffset t bs ss bx bz).2 ∧
    (findOffset t bs ss bx bz).2 < (bz + 1) * bs ∧
    ((∀ a b, t.speedMod a b = 0) →
      findOffset t bs ss bx bz = (bx * bs + bs / 2, bz * bs + bs / 2)) := by
  have hinv : foInvariant bs
      ((List.range bs).foldl
        (fun acc z => foRow t ((bx * bs : ℕ) : ℤ) ((bz * bs : ℕ) : ℤ) bs
          (bs * bs / ss) z acc)
        ⟨bs / 2, bs / 2, t.floatMax, t.speedMod ((bx * bs : ℕ) : ℤ) ((bz * bs : ℕ) : ℤ),
          decide (t.speedMod ((bx * bs : ℕ) : ℤ) ((bz * bs : ℕ) : ℤ) = 0) ||
            t.blockedStructure ((bx * bs : ℕ) : ℤ) ((bz * bs : ℕ) : ℤ)⟩) :=
    foldl_foRow_inv t _ _ bs _ (List.range bs) _ (fun z hz => List.mem_range.mp hz)
      ⟨Nat.div_lt_self (by omega) (by omega), Nat.div_lt_self (by omega) (by omega)⟩
  obtain ⟨h1, h2⟩ := hinv
  refine ⟨?_, ?_, ?_, ?_, ?_⟩
  · exact Nat.le_add_right _ _
  · show bx * bs + _ < (bx + 1) * bs
    rw [Nat.succ_mul]
    exact Nat.add_lt_add_left h1 _
  · exact Nat.le_add_right _ _
  · show bz * bs + _ < (bz + 1) * bs
    rw [Nat.succ_mul]
    exact Nat.add_lt_add_left h2 _
  · intro h0
    have hcb : (⟨bs / 2, bs / 2, t.floatMax,
        t.speedMod ((bx * bs : ℕ) : ℤ) ((bz * bs : ℕ) : ℤ),
        decide (t.speedMod ((bx * bs : ℕ) : ℤ) ((bz * bs : ℕ) : ℤ) = 0) ||
          t.blockedStructure ((bx * bs : ℕ) : ℤ) ((bz * bs : ℕ) : ℤ)⟩ : FOState).curblock
        = true := by
      simp [h0]
    obtain ⟨hx, hz⟩ := foldl_foRow_blockedEverywhere t ((bx * bs : ℕ) : ℤ)
      ((bz * bs : ℕ) : ℤ) bs (bs * bs / ss) h0 (List.range bs) _ hcb
    unfold findOffset
    dsimp only
    rw [hx, hz]

/-- Witness for C10: the bounds at a concrete block, and the centre fallback
on fully blocked terrain. -/
theorem findOffset_within_block_witness :
    (findOffset terrainC5 4 4 2 3).1 < (2 + 1) * 4 ∧
    2 * 4 ≤ (findOffset terrainC5 4 4 2 3).1 ∧
    findOffset terrainZero 4 4 2 3 = (2 * 4 + 4 / 2, 3 * 4 + 4 / 2) :=
  ⟨(findOffset_within_block terrainC5 4 4 2 3 (by decide)).2.1,
   (findOffset_within_block terrainC5 4 4 2 3 (by decide)).1,
   (findOffset_within_block terrainZero 4 4 2 3 (by decide)).2.2.2.2 (fun _ _ => rfl)⟩

/-- Witness for C9 at concrete inputs. -/
theorem findOffset_deterministic_witness :
    findOffset terrainC5 8 8 0 0 = findOffset terrainC5 8 8 0 0 ∧
    ∀ (tbl : ℤ → ℕ → Int2) (i : ℤ) (m : ℕ),
      update2 (update2 tbl i m (int2OfPair (findOffset terrainC5 8 8 0 0))) i m
          (int2OfPair (findOffset terrainC5 8 8 0 0))
        = update2 tbl i m (int2OfPair (findOffset terrainC5 8 8 0 0)) :=
  findOffset_deterministic terrainC5 terrainC5 8 8 0 0 rfl rfl rfl rfl rfl

theorem not_blockInMap_iff (nx nz : ℕ) (b : Int2) :
    ¬ blockInMap nx nz b ↔
      (b.x < 0 ∨ (nx : ℤ) ≤ b.x ∨ b.y < 0 ∨ (nz : ℤ) ≤ b.y) := by
  unfold blockInMap
  omega

/-- C6: CalculateVertex stores INFINITY in the slot of the stored direction
when the child block lies outside the map, or when either representative
endpoint square is blocked by a structure, or when the constrained fine
search fails; and it stores the returned fine path cost when the search
succeeds. -/
theorem calculateVertex_infinity_rules (env : VertexEnv) (offsets : ℤ → Int2)
    (vcosts : ℤ → ℚ) (pathType : ℕ) (pb : Int2) (dir : PathDir) :
    (¬ blockInMap env.nx env.nz (pb + dirVec dir) →
      calculateVertex env offsets vcosts pathType pb dir (cvVertexNbr env pathType pb dir)
        = env.infinityCost) ∧
    (blockInMap env.nx env.nz (pb + dirVec dir) →
      (env.strtBlocked (offsets (blockPosToIdx env.nx pb)) = true ∨
        env.goalBlocked (offsets (blockPosToIdx env.nx pb))
          (offsets (blockPosToIdx env.nx (pb + dirVec dir))) = true) →
      calculateVertex env offsets vcosts pathType pb dir (cvVertexNbr env pathType pb dir)
        = env.infinityCost) ∧
    (blockInMap env.nx env.nz (pb + dirVec dir) →
      env.strtBlocked (offsets (blockPosToIdx env.nx pb)) = false →
      env.goalBlocked (offsets (blockPosToIdx env.nx pb))
        (offsets (blockPosToIdx env.nx (pb + dirVec dir))) = false →
      env.finePath (offsets (blockPosToIdx env.nx pb))
        (offsets (blockPosToIdx env.nx (pb + dirVec dir))) = none →
      calculateVertex env offsets vcosts pathType pb dir (cvVertexNbr env pathType pb dir)
        = env.infinityCost) ∧
    (∀ c : ℚ, blockInMap env.nx env.nz (pb + dirVec dir) →
      env.strtBlocked (offsets (blockPosToIdx env.nx pb)) = false →
      env.goalBlocked (offsets (blockPosToIdx env.nx pb))
        (offsets (blockPosToIdx env.nx (pb + dirVec dir))) = false →
      env.finePath (offsets (blockPosToIdx env.nx pb))
        (offsets (blockPosToIdx env.nx (pb + dirVec dir))) = some c →
      calculateVertex env offsets vcosts pathType pb dir (cvVertexNbr env pathType pb dir)
        = c) := by
  refine ⟨?_, ?_, ?_, ?_⟩
  · intro hout
    unfold calculateVertex
    dsimp only
    rw [if_pos ((not_blockInMap_iff env.nx env.nz (pb + dirVec dir)).mp hout)]
    exact Function.update_same _ _ _
  · intro hin hblk
    unfold calculateVertex
    dsimp only
    rw [if_neg (by rw [← not_blockInMap_iff env.nx env.nz (pb + dirVec dir)]; exact not_not.mpr hin)]
    rw [if_pos (by rcases hblk with hb | hb <;> simp [hb])]
    exact Function.update_same _ _ _
  · intro hin hsb hgb hfp
    unfold calculateVertex
    dsimp only
    rw [if_neg (by rw [← not_blockInMap_iff env.nx env.nz (pb + dirVec dir)]; exact not_not.mpr hin)]
    rw [if_neg (by simp [hsb, hgb])]
    rw [hfp]
    exact Function.update_same _ _ _
  · intro c hin hsb hgb hfp
    unfold calculateVertex
    dsimp only
    rw [if_neg (by rw [← not_blockInMap_iff env.nx env.nz (pb + dirVec dir)]; exact not_not.mpr hin)]
    rw [if_neg (by simp [hsb, hgb])]
    rw [hfp]
    exact Function.update_same _ _ _

/-- Witness for C6: on the 2 by 2 grid, the RIGHT edge from block (0,0) gets
the fine cost 5, and the LEFT edge leaves the map and gets INFINITY. -/
theorem calculateVertex_infinity_rules_witness :
    calculateVertex vertexEnvW (fun _ => ⟨0, 0⟩) (fun _ => 0) 0 ⟨0, 0⟩ .right
        (cvVertexNbr vertexEnvW 0 ⟨0, 0⟩ .right) = 5 ∧
    calculateVertex vertexEnvW (fun _ => ⟨0, 0⟩) (fun _ => 0) 0 ⟨0, 0⟩ .left
        (cvVertexNbr vertexEnvW 0 ⟨0, 0⟩ .left) = vertexEnvW.infinityCost :=
  ⟨(calculateVertex_infinity_rules vertexEnvW (fun _ => ⟨0, 0⟩) (fun _ => 0) 0 ⟨0, 0⟩
      .right).2.2.2 5 (by decide) rfl rfl rfl,
   (calculateVertex_infinity_rules vertexEnvW (fun _ => ⟨0, 0⟩) (fun _ => 0) 0 ⟨0, 0⟩
      .left).1 (by decide)⟩

/-- C4: the TestBlock contract.  Out-of-bounds, BLOCKED or CLOSED, and
INFINITY-vertex children are rejected with no change to the search state
(beyond the tested-blocks counter); a child whose representative square
violates the constraints is marked BLOCKED, recorded dirty and rejected; a
child already OPEN with a stored f at most the new f is accepted with no
update; otherwise the child's direction bits end up holding exactly the
arrival direction (prior bits cleared), f, g and the parent position are
stored, the child is marked OPEN and appended to the open set.  The last
case assumes the search invariant that a block that is not OPEN carries no
direction bits. -/
theorem testBlock_contract (env : SearchEnv) (st : SearchState) (parent : PathNode)
    (d : PathDir) (synced : Bool) :
    (((tbChildBlock parent d).x < 0 ∨ (env.nx : ℤ) ≤ (tbChildBlock parent d).x ∨
      (tbChildBlock parent d).y < 0 ∨ (env.nz : ℤ) ≤ (tbChildBlock parent d).y) →
      testBlock env st parent d synced = (false, bumpTested st)) ∧
    (blockInMap env.nx env.nz (tbChildBlock parent d) →
      ((st.nodeMask (tbChildIdx env parent d)).blocked = true ∨
        (st.nodeMask (tbChildIdx env parent d)).closed = true) →
      testBlock env st parent d synced = (false, bumpTested st)) ∧
    (blockInMap env.nx env.nz (tbChildBlock parent d) →
      (st.nodeMask (tbChildIdx env parent d)).blocked = false →
      (st.nodeMask (tbChildIdx env parent d)).closed = false →
      env.vertexCosts (tbVertexIdx env parent d) = env.infinityCost →
      testBlock env st parent d synced = (false, bumpTested st)) ∧
    (blockInMap env.nx env.nz (tbChildBlock parent d) →
      (st.nodeMask (tbChildIdx env parent d)).blocked = false →
      (st.nodeMask (tbChildIdx env parent d)).closed = false →
      env.vertexCosts (tbVertexIdx env parent d) < env.infinityCost →
      env.withinConstraints (tbSquare env parent d).x (tbSquare env parent d).y = false →
      testBlock env st parent d synced = (false, { bumpTested st with
        nodeMask := (Function.update st.nodeMask (tbChildIdx env parent d)
          ((st.nodeMask (tbChildIdx env parent d)).setBlockedBit)),
        dirtyBlocks := st.dirtyBlocks ++ [tbChildIdx env parent d] })) ∧
    (blockInMap env.nx env.nz (tbChildBlock parent d) →
      (st.nodeMask (tbChildIdx env parent d)).blocked = false →
      (st.nodeMask (tbChildIdx env parent d)).closed = false →
      env.vertexCosts (tbVertexIdx env parent d) < env.infinityCost →
      env.withinConstraints (tbSquare env parent d).x (tbSquare env parent d).y = true →
      (st.nodeMask (tbChildIdx env parent d)).opened = true →
      st.fCostArr (tbChildIdx env parent d) ≤ tbFCost env parent d synced →
      testBlock env st parent d synced = (true, bumpTested st)) ∧
    (blockInMap env.nx env.nz (tbChildBlock parent d) →
      (st.nodeMask (tbChildIdx env parent d)).blocked = false →
      (st.nodeMask (tbChildIdx env parent d)).closed = false →
      env.vertexCosts (tbVertexIdx env parent d) < env.infinityCost →
      env.withinConstraints (tbSquare env parent d).x (tbSquare env parent d).y = true →
      ¬((st.nodeMask (tbChildIdx env parent d)).opened = true ∧
        st.fCostArr (tbChildIdx env parent d) ≤ tbFCost env parent d synced) →
      ((st.nodeMask (tbChildIdx env parent d)).opened = false →
        (st.nodeMask (tbChildIdx env parent d)).dirBits = 0) →
      (testBlock env st parent d synced).1 = true ∧
      ((testBlock env st parent d synced).2.nodeMask (tbChildIdx env parent d)).opened = true ∧
      ((testBlock env st parent d synced).2.nodeMask (tbChildIdx env parent d)).dirBits
        = dirIdx d ∧
      (testBlock env st parent d synced).2.fCostArr (tbChildIdx env parent d)
        = tbFCost env parent d synced ∧
      (testBlock env st parent d synced).2.gCostArr (tbChildIdx env parent d)
        = tbGCost env parent d synced ∧
      (testBlock env st parent d synced).2.peParentNodePos (tbChildIdx env parent d)
        = parent.nodePos ∧
      (testBlock env st parent d synced).2.openBlocks
        = st.openBlocks ++ [⟨tbFCost env parent d synced, tbGCost env parent d synced,
            tbChildBlock parent d, tbChildIdx env parent d⟩]) := by
  refine ⟨?_, ?_, ?_, ?_, ?_, ?_⟩
  · intro hout
    unfold testBlock bumpTested
    dsimp only
    by_cases hx : (tbChildBlock parent d).x < 0 ∨ (env.nx : ℤ) ≤ (tbChildBlock parent d).x
    · rw [if_pos hx]
    · rw [if_neg hx, if_pos (by rcases hout with h | h | h | h <;> first | exact absurd (Or.inl h) hx | exact absurd (Or.inr h) hx | exact Or.inl h | exact Or.inr h)]
  · intro hin hbc
    have hin' := hin
    unfold blockInMap at hin'
    obtain ⟨ha, hb, hc, he⟩ := hin'
    unfold testBlock bumpTested
    dsimp only
    rw [if_neg (by omega), if_neg (by omega)]
    rw [if_pos (by rcases hbc with h | h <;> simp [h])]
  · intro hin hnb hnc hv
    have hin' := hin
    unfold blockInMap at hin'
    obtain ⟨ha, hb, hc, he⟩ := hin'
    unfold testBlock bumpTested
    dsimp only
    rw [if_neg (by omega), if_neg (by omega)]
    rw [if_neg (by simp [hnb, hnc])]
    rw [if_pos (hv ▸ le_refl _)]
  · intro hin hnb hnc hv hwc
    have hin' := hin
    unfold blockInMap at hin'
    obtain ⟨ha, hb, hc, he⟩ := hin'
    unfold testBlock bumpTested
    dsimp only
    rw [if_neg (by omega), if_neg (by omega)]
    rw [if_neg (by simp [hnb, hnc])]
    rw [if_neg (not_le.mpr hv)]
    rw [if_pos hwc]
  · intro hin hnb hnc hv hwc ho hle
    have hin' := hin
    unfold blockInMap at hin'
    obtain ⟨ha, hb, hc, he⟩ := hin'
    unfold testBlock bumpTested
    dsimp only
    rw [if_neg (by omega), if_neg (by omega)]
    rw [if_neg (by simp [hnb, hnc])]
    rw [if_neg (not_le.mpr hv)]
    rw [if_neg (by simp [hwc])]
    rw [if_pos (by rw [ho]; simpa using hle)]
  · intro hin hnb hnc hv hwc hno hdb
    have hin' := hin
    unfold blockInMap at hin'
    obtain ⟨ha, hb, hc, he⟩ := hin'
    unfold testBlock bumpTested
    dsimp only
    rw [if_neg (by omega), if_neg (by omega)]
    rw [if_neg (by simp [hnb, hnc])]
    rw [if_neg (not_le.mpr hv)]
    rw [if_neg (by simp [hwc])]
    rw [if_neg (by simpa [Bool.and_eq_true, decide_eq_true_iff] using hno)]
    by_cases hop : (st.nodeMask (tbChildIdx env parent d)).opened = true
    · rw [if_pos hop]
      refine ⟨rfl, ?_, ?_, ?_, ?_, ?_, ?_⟩ <;>
        · dsimp only
          split <;>
            simp [Function.update_same, NodeMask.setOpenDir, NodeMask.clearCardinals,
              bumpTested]
    · rw [if_neg hop]
      have hdb0 : (st.nodeMask (tbChildIdx env parent d)).dirBits = 0 :=
        hdb (by simpa using hop)
      refine ⟨rfl, ?_, ?_, ?_, ?_, ?_, ?_⟩ <;>
        · dsimp only
          split <;>
            simp [Function.update_same, NodeMask.setOpenDir, bumpTested, hdb0]

/-- Witness for C4: from parent block (0,0) of the 2 by 2 grid, the LEFT
child is out of bounds and is rejected without a state update, and the RIGHT
child (clear mask, finite vertex cost, constraints satisfied) is opened with
the arrival direction, stored costs and parent position. -/
theorem testBlock_contract_witness :
    testBlock searchEnvW searchStateEmpty parentW .left false
      = (false, bumpTested searchStateEmpty) ∧
    (testBlock searchEnvW searchStateEmpty parentW .right false).1 = true ∧
    ((testBlock searchEnvW searchStateEmpty parentW .right false).2.nodeMask
      (tbChildIdx searchEnvW parentW .right)).opened = true ∧
    ((testBlock searchEnvW searchStateEmpty parentW .right false).2.nodeMask
      (tbChildIdx searchEnvW parentW .right)).dirBits = dirIdx .right ∧
    (testBlock searchEnvW searchStateEmpty parentW .right false).2.fCostArr
      (tbChildIdx searchEnvW parentW .right) = tbFCost searchEnvW parentW .right false ∧
    (testBlock searchEnvW searchStateEmpty parentW .right false).2.gCostArr
      (tbChildIdx searchEnvW parentW .right) = tbGCost searchEnvW parentW .right false ∧
    (testBlock searchEnvW searchStateEmpty parentW .right false).2.peParentNodePos
      (tbChildIdx searchEnvW parentW .right) = parentW.nodePos ∧
    (testBlock searchEnvW searchStateEmpty parentW .right false).2.openBlocks
      = searchStateEmpty.openBlocks ++ [⟨tbFCost searchEnvW parentW .right false,
          tbGCost searchEnvW parentW .right false, tbChildBlock parentW .right,
          tbChildIdx searchEnvW parentW .right⟩] :=
  ⟨(testBlock_contract searchEnvW searchStateEmpty parentW .left false).1 (by decide),
   (testBlock_contract searchEnvW searchStateEmpty parentW .right false).2.2.2.2.2
     (by decide) rfl rfl (by decide) rfl
     (fun hc => by exact absurd hc.1 (by decide)) (fun _ => rfl)⟩

theorem popMin_none : ∀ (l : List PathNode), popMin l = none → l = []
  | [] => fun _ => rfl
  | n :: rest => by
    intro h
    unfold popMin at h
    split at h
    · simp at h
    · split at h <;> simp at h

theorem doSearchLoop_spec (env : SearchEnv) (synced : Bool) :
    ∀ (fuel : ℕ) (st : SearchState) (found : Bool) (st' : SearchState) (ex : List PathNode),
      doSearchLoop env synced fuel st = some (found, st', ex) →
      ((found = true → st'.mGoalHeuristic = 0 ∧
          ∃ n, n ∈ ex ∧ goalReached env n = true ∧ st'.mGoalBlockIdx = n.nodeNum) ∧
        (found = false → (∀ n ∈ ex, goalReached env n = false) ∧
          (st'.openBlocks = [] ∨ env.maxBlocksToBeSearched ≤ st'.openBufferSize))) := by
  intro fuel
  induction fuel with
  | zero =>
    intro st found st' ex h
    simp [doSearchLoop] at h
  | succ fuel ih =>
    intro st found st' ex h
    unfold doSearchLoop at h
    split at h
    · simp only [Option.some.injEq, Prod.mk.injEq] at h
      obtain ⟨rfl, rfl, rfl⟩ := h
      rename_i hexit
      exact ⟨fun hT => (nomatch hT), fun _ => ⟨by simp, hexit⟩⟩
    · rename_i hexit
      split at h
      · rename_i hpop
        simp only [Option.some.injEq, Prod.mk.injEq] at h
        obtain ⟨rfl, rfl, rfl⟩ := h
        exact ⟨fun hT => (nomatch hT), fun _ => ⟨by simp, Or.inl (popMin_none _ hpop)⟩⟩
      · rename_i ob rest hpop
        dsimp only at h
        split at h
        · exact ih _ found st' ex h
        · rename_i hmask
          split at h
          · rename_i hgoal
            simp only [Option.some.injEq, Prod.mk.injEq] at h
            obtain ⟨rfl, rfl, rfl⟩ := h
            refine ⟨fun _ => ⟨rfl, ob, by simp, hgoal, rfl⟩, fun hF => (nomatch hF)⟩
          · rename_i hgoal
            split at h
            · simp at h
            · rename_i found2 st2 ex2 hrec
              simp only [Option.some.injEq, Prod.mk.injEq] at h
              obtain ⟨rfl, rfl, rfl⟩ := h
              obtain ⟨ih1, ih2⟩ := ih _ found2 st2 ex2 hrec
              refine ⟨fun hT => ?_, fun hF => ?_⟩
              · obtain ⟨hg0, n, hn, hgn, hgi⟩ := ih1 hT
                exact ⟨hg0, n, List.mem_cons_of_mem _ hn, hgn, hgi⟩
              · obtain ⟨hall, hexit2⟩ := ih2 hF
                refine ⟨?_, hexit2⟩
                intro n hn
                rcases List.mem_cons.mp hn with h1 | h1
                · subst h1
                  simpa using hgoal
                · exact hall n h1

/-- C3: DoSearch result classification.  Whenever the search terminates
within its fuel, it returns Ok exactly when one of the examined (popped,
non-skipped) open blocks satisfies the goal test, in which case the goal
heuristic is zeroed and the goal block recorded; any other outcome is
GoalOutOfRange with the open buffer full or the open set drained; the
trailing Error branch is never returned. -/
theorem doSearch_classification (env : SearchEnv) (synced : Bool) (fuel : ℕ)
    (st : SearchState) (r : SearchResult) (st' : SearchState) (ex : List PathNode)
    (h : doSearch env synced fuel st = some (r, st', ex)) :
    (r = .ok ↔ ∃ n, n ∈ ex ∧ goalReached env n = true) ∧
    (r = .ok → st'.mGoalHeuristic = 0 ∧
      ∃ n, n ∈ ex ∧ goalReached env n = true ∧ st'.mGoalBlockIdx = n.nodeNum) ∧
    (r ≠ .ok → r = .goalOutOfRange ∧
      (st'.openBlocks = [] ∨ env.maxBlocksToBeSearched ≤ st'.openBufferSize)) ∧
    r ≠ .err := by
  unfold doSearch at h
  split at h
  · simp at h
  · rename_i found st1 ex1 hloop
    obtain ⟨spec1, spec2⟩ := doSearchLoop_spec env synced fuel st found st1 ex1 hloop
    split at h
    · rename_i hfound
      simp only [Option.some.injEq, Prod.mk.injEq] at h
      obtain ⟨rfl, rfl, rfl⟩ := h
      obtain ⟨hg0, n, hn, hgn, hgi⟩ := spec1 hfound
      exact ⟨⟨fun _ => ⟨n, hn, hgn⟩, fun _ => rfl⟩,
        fun _ => ⟨hg0, n, hn, hgn, hgi⟩,
        fun hne => absurd rfl hne,
        fun he => (nomatch he)⟩
    · rename_i hfound
      have hf : found = false := by
        revert hfound
        cases found <;> simp
      obtain ⟨hall, _⟩ := spec2 hf
      split at h
      · rename_i hbuf
        simp only [Option.some.injEq, Prod.mk.injEq] at h
        obtain ⟨rfl, rfl, rfl⟩ := h
        exact ⟨⟨fun hok => (nomatch hok),
            fun hex => absurd hex.choose_spec.2 (by simp [hall _ hex.choose_spec.1])⟩,
          fun hok => (nomatch hok),
          fun _ => ⟨rfl, Or.inr hbuf⟩,
          fun he => (nomatch he)⟩
      · rename_i hbuf
        split at h
        · rename_i hemp
          simp only [Option.some.injEq, Prod.mk.injEq] at h
          obtain ⟨rfl, rfl, rfl⟩ := h
          exact ⟨⟨fun hok => (nomatch hok),
              fun hex => absurd hex.choose_spec.2 (by simp [hall _ hex.choose_spec.1])⟩,
            fun hok => (nomatch hok),
            fun _ => ⟨rfl, Or.inl hemp⟩,
            fun he => (nomatch he)⟩
        · rename_i hemp
          obtain ⟨_, hexit⟩ := spec2 hf
          rcases hexit with he | hb
          · exact absurd he hemp
          · exact absurd hb hbuf

/-- Witness for C3: with an empty open set the search returns
GoalOutOfRange at once, and the classification holds at that run. -/
theorem doSearch_classification_witness :
    (SearchResult.goalOutOfRange = SearchResult.ok ↔
      ∃ n, n ∈ ([] : List PathNode) ∧ goalReached searchEnvW n = true) ∧
    (SearchResult.goalOutOfRange = SearchResult.ok →
      searchStateEmpty.mGoalHeuristic = 0 ∧
      ∃ n, n ∈ ([] : List PathNode) ∧ goalReached searchEnvW n = true ∧
        searchStateEmpty.mGoalBlockIdx = n.nodeNum) ∧
    (SearchResult.goalOutOfRange ≠ SearchResult.ok →
      SearchResult.goalOutOfRange = SearchResult.goalOutOfRange ∧
      (searchStateEmpty.openBlocks = [] ∨
        searchEnvW.maxBlocksToBeSearched ≤ searchStateEmpty.openBufferSize)) ∧
    SearchResult.goalOutOfRange ≠ SearchResult.err :=
  doSearch_classification searchEnvW false 1 searchStateEmpty .goalOutOfRange
    searchStateEmpty [] rfl

/-- Counterexample for C8: with BLOCK_SIZE 32 and SQUARES_TO_UPDATE 600,
BLOCKS_TO_UPDATE is 1 and the claim's interval [max(B/2,4), B*2] = [4,2] is
empty; on a 100-block queue the code's pre-penalty budget is 4, which is not
at most the claimed upper bound B*2 = 2. -/
theorem update_budget_exceeds_claimed_interval :
    updateBudget updateEnvC8 100 = 4 ∧
    ¬(updateBudget updateEnvC8 100 ≤ (blocksToUpdateConst updateEnvC8 : ℤ) * 2) := by
  have h : updateBudget updateEnvC8 100 = 4 := by
    norm_num [updateBudget, clampI, progressiveUpdates, ctrunc, minBlocksToUpdate,
      maxBlocksToUpdate, blocksToUpdateConst, updateEnvC8]
  refine ⟨h, ?_⟩
  rw [h]
  norm_num [blocksToUpdateConst, updateEnvC8]

/-- C8 (amended): on every tick the pre-penalty number of blocks Update may
refresh is the progressive estimate clamped to the interval from
`max(BLOCKS_TO_UPDATE/2, 4)` to `max(BLOCKS_TO_UPDATE*2, max(BLOCKS_TO_UPDATE/2, 4))`
(the upper end is raised to the lower end when BLOCKS_TO_UPDATE*2 falls
below it): the budget always lies in that interval and equals the estimate
whenever the estimate itself lies in it. -/
theorem update_budget_clamped (env : UpdateEnv) (queueLen : ℕ) :
    minBlocksToUpdate env ≤ updateBudget env queueLen ∧
    updateBudget env queueLen ≤ maxBlocksToUpdate env ∧
    (minBlocksToUpdate env ≤ progressiveUpdates env queueLen →
      progressiveUpdates env queueLen ≤ maxBlocksToUpdate env →
      updateBudget env queueLen = progressiveUpdates env queueLen) := by
  unfold updateBudget clampI maxBlocksToUpdate
  omega

/-- Witness for C8 (amended) at a concrete tick: a 4-block queue gives a
progressive estimate of 4, inside the interval, so the budget equals it. -/
theorem update_budget_clamped_witness :
    minBlocksToUpdate updateEnvC8 ≤ updateBudget updateEnvC8 4 ∧
    updateBudget updateEnvC8 4 = progressiveUpdates updateEnvC8 4 :=
  ⟨(update_budget_clamped updateEnvC8 4).1,
   (update_budget_clamped updateEnvC8 4).2.2
     (by norm_num [progressiveUpdates, ctrunc, minBlocksToUpdate, blocksToUpdateConst,
       updateEnvC8])
     (by norm_num [progressiveUpdates, ctrunc, minBlocksToUpdate, maxBlocksToUpdate,
       blocksToUpdateConst, updateEnvC8])⟩

theorem rowMajor_y_le (nx : ℕ) (p q : Int2) (hq1 : 0 ≤ q.x) (hp2 : p.x < (nx : ℤ))
    (h : blockPosToIdx nx q ≤ blockPosToIdx nx p) : q.y ≤ p.y := by
  unfold blockPosToIdx at h
  by_contra hc
  push_neg at hc
  have hnx0 : (0 : ℤ) ≤ (nx : ℤ) := Int.natCast_nonneg nx
  have hmul : ((p.y + 1) : ℤ) * (nx : ℤ) ≤ q.y * (nx : ℤ) :=
    mul_le_mul_of_nonneg_right (by omega) hnx0
  have hexp : ((p.y + 1) : ℤ) * (nx : ℤ) = p.y * (nx : ℤ) + (nx : ℤ) := by ring
  linarith

theorem blockPosToIdx_inj (nx nz : ℕ) (a b : Int2) (ha : blockInMap nx nz a)
    (hb : blockInMap nx nz b) (h : blockPosToIdx nx a = blockPosToIdx nx b) : a = b := by
  unfold blockInMap at ha hb
  obtain ⟨ha1, ha2, ha3, ha4⟩ := ha
  obtain ⟨hb1, hb2, hb3, hb4⟩ := hb
  have h1 : a.y ≤ b.y := rowMajor_y_le nx b a ha1 hb2 (le_of_eq h)
  have h2 : b.y ≤ a.y := rowMajor_y_le nx a b hb1 ha2 (ge_of_eq h)
  have hy : a.y = b.y := le_antisymm h1 h2
  have hx : a.x = b.x := by
    unfold blockPosToIdx at h
    rw [hy] at h
    exact add_left_cancel h
  obtain ⟨ax, ay⟩ := a
  obtain ⟨bx, bz⟩ := b
  dsimp at hx hy
  rw [hx, hy]

theorem mem_descRange (lo hi v : ℤ) (h : v ∈ descRange lo hi) : lo ≤ v ∧ v ≤ hi := by
  unfold descRange at h
  rw [List.mem_map] at h
  obtain ⟨i, hmem, heq⟩ := h
  rw [List.mem_range] at hmem
  subst heq
  omega

theorem clampI_mem (v lo hi : ℤ) (h : lo ≤ hi) :
    lo ≤ clampI v lo hi ∧ clampI v lo hi ≤ hi := by
  unfold clampI
  omega

theorem mcPositions_inMap (env : UpdateEnv) (x1 z1 x2 z2 : ℕ)
    (hnx : 1 ≤ env.nx) (hnz : 1 ≤ env.nz) :
    ∀ pos ∈ mcPositions env x1 z1 x2 z2, blockInMap env.nx env.nz pos := by
  intro pos hpos
  unfold mcPositions at hpos
  simp only [List.mem_flatMap, List.mem_map] at hpos
  obtain ⟨z, hz, x, hx, rfl⟩ := hpos
  obtain ⟨hz1, hz2⟩ := mem_descRange _ _ _ hz
  obtain ⟨hx1, hx2⟩ := mem_descRange _ _ _ hx
  have hcx := clampI_mem ((min x1 x2 / env.blockSize : ℕ) : ℤ) 0 ((env.nx : ℤ) - 1) (by omega)
  have hcx2 := clampI_mem ((max x1 x2 / env.blockSize : ℕ) : ℤ) 0 ((env.nx : ℤ) - 1) (by omega)
  have hcz := clampI_mem ((min z1 z2 / env.blockSize : ℕ) : ℤ) 0 ((env.nz : ℤ) - 1) (by omega)
  have hcz2 := clampI_mem ((max z1 z2 / env.blockSize : ℕ) : ℤ) 0 ((env.nz : ℤ) - 1) (by omega)
  unfold blockInMap
  dsimp only
  omega

theorem mcStep_inv (env : UpdateEnv) (st : UpState) (pos : Int2)
    (hpos : blockInMap env.nx env.nz pos) (h : QInv env st) : QInv env (mcStep env st pos) := by
  obtain ⟨hnd, hmem, hiff⟩ := h
  unfold mcStep
  split
  · exact ⟨hnd, hmem, hiff⟩
  · rename_i hobs
    have hnotin : pos ∉ st.updatedBlocks := fun hin => hobs ((hiff pos hpos).mp hin)
    refine ⟨?_, ?_, ?_⟩
    · rw [List.nodup_append]
      refine ⟨hnd, List.nodup_singleton pos, ?_⟩
      intro a ha hb
      simp only [List.mem_singleton] at hb
      subst hb
      exact hnotin ha
    · intro p hp
      rcases List.mem_append.mp hp with h1 | h1
      · exact hmem p h1
      · simp only [List.mem_singleton] at h1
        subst h1
        exact hpos
    · intro p hp
      dsimp only
      by_cases hpe : blockPosToIdx env.nx p = blockPosToIdx env.nx pos
      · have hppos : p = pos := blockPosToIdx_inj env.nx env.nz p pos hp hpos hpe
        subst hppos
        constructor
        · intro _
          rw [hpe, Function.update_same]
          rfl
        · intro _
          exact List.mem_append.mpr (Or.inr (by simp))
      · rw [Function.update_noteq hpe]
        constructor
        · intro hin
          rcases List.mem_append.mp hin with h1 | h1
          · exact (hiff p hp).mp h1
          · simp only [List.mem_singleton] at h1
            exact absurd (congrArg (blockPosToIdx env.nx) h1) hpe
        · intro hob
          exact List.mem_append.mpr (Or.inl ((hiff p hp).mpr hob))

theorem foldl_mcStep_inv (env : UpdateEnv) :
    ∀ (l : List Int2) (st : UpState), (∀ pos ∈ l, blockInMap env.nx env.nz pos) →
      QInv env st → QInv env (l.foldl (mcStep env) st)
  | [], st, _, h => h
  | pos :: l, st, hl, h => by
    simp only [List.foldl_cons]
    exact foldl_mcStep_inv env l _ (fun p hp => hl p (List.mem_cons_of_mem pos hp))
      (mcStep_inv env st pos (hl pos (List.mem_cons_self pos l)) h)

theorem mapChanged_inv (env : UpdateEnv) (x1 z1 x2 z2 : ℕ) (st : UpState)
    (hnx : 1 ≤ env.nx) (hnz : 1 ≤ env.nz) (h : QInv env st) :
    QInv env (mapChanged env x1 z1 x2 z2 st) :=
  foldl_mcStep_inv env (mcPositions env x1 z1 x2 z2) st
    (mcPositions_inMap env x1 z1 x2 z2 hnx hnz) h

theorem drainLoop_spec (env : UpdateEnv) (cap : ℤ) (mask : ℤ → NodeMask) :
    ∀ (q : List Int2) (acc : List (Int2 × ℕ)),
      ∃ popped : List Int2,
        q = popped ++ (drainLoop env cap mask q acc).2 ∧
        (drainLoop env cap mask q acc).1
          = acc ++ (popped.filter
              (fun pos => (mask (blockPosToIdx env.nx pos)).obsolete)).flatMap (mdEntries env)
  | [], acc => ⟨[], rfl, by simp [drainLoop]⟩
  | pos :: rest, acc => by
    unfold drainLoop
    split
    · rename_i hskip
      obtain ⟨popped, h1, h2⟩ := drainLoop_spec env cap mask rest acc
      refine ⟨pos :: popped, by rw [List.cons_append, ← h1], ?_⟩
      rw [h2, List.filter_cons]
      simp [hskip]
    · rename_i hobs
      have hot : (mask (blockPosToIdx env.nx pos)).obsolete = true := by
        revert hobs
        cases (mask (blockPosToIdx env.nx pos)).obsolete <;> simp
      split
      · exact ⟨[], rfl, by simp⟩
      · obtain ⟨popped, h1, h2⟩ := drainLoop_spec env cap mask rest (acc ++ mdEntries env pos)
        refine ⟨pos :: popped, by rw [List.cons_append, ← h1], ?_⟩
        rw [h2, List.filter_cons]
        simp [hot, List.append_assoc]

theorem offsetsPhase_fields (env : UpdateEnv) :
    ∀ (l : List (Int2 × ℕ)) (st : UpState),
      (offsetsPhase env l st).nodeMask = st.nodeMask ∧
      (offsetsPhase env l st).updatedBlocks = st.updatedBlocks
  | [], st => ⟨rfl, rfl⟩
  | e :: l, st => by
    unfold offsetsPhase
    simp only [List.foldl_cons]
    exact offsetsPhase_fields env l _

theorem serialPhase_queue (env : UpdateEnv) :
    ∀ (l : List (Int2 × ℕ)) (st : UpState),
      (serialPhase env l st).updatedBlocks = st.updatedBlocks
  | [], st => rfl
  | (pos, md) :: rest, st => by
    unfold serialPhase
    dsimp only
    split
    · exact serialPhase_queue env rest _
    · exact serialPhase_queue env rest _

theorem clearsAtIdx_cons (env : UpdateEnv) (pos : Int2) (md : ℕ)
    (rest : List (Int2 × ℕ)) (j : ℤ) :
    clearsAtIdx env ((pos, md) :: rest) j
      = ((decide (blockPosToIdx env.nx pos = j) && nextClears rest md) ||
          clearsAtIdx env rest j) := rfl

theorem serialPhase_obsolete (env : UpdateEnv) :
    ∀ (l : List (Int2 × ℕ)) (st : UpState) (j : ℤ),
      ((serialPhase env l st).nodeMask j).obsolete
        = ((st.nodeMask j).obsolete && !(clearsAtIdx env l j))
  | [], st, j => by simp [serialPhase, clearsAtIdx]
  | (pos, md) :: rest, st, j => by
    rw [clearsAtIdx_cons]
    unfold serialPhase
    dsimp only
    split
    · rename_i hnc
      rw [serialPhase_obsolete env rest _ j]
      dsimp only
      by_cases hj : blockPosToIdx env.nx pos = j
      · subst hj
        rw [Function.update_same]
        simp [NodeMask.clearObsoleteBit, hnc]
      · rw [Function.update_noteq (fun hh => hj hh.symm)]
        simp [hnc, hj]
    · rename_i hnc
      rw [serialPhase_obsolete env rest _ j]
      dsimp only
      have hnc2 : nextClears rest md = false := by
        revert hnc
        cases nextClears rest md <;> simp
      simp [hnc2]

theorem mdsList_pairwise (env : UpdateEnv) : (mdsList env).Pairwise (· < ·) :=
  List.Pairwise.sublist (List.filter_sublist _) (List.pairwise_lt_range _)

theorem nextClears_flatMap (env : UpdateEnv) (P : List Int2) (m : ℕ) (hm : m ∈ mdsList env) :
    nextClears (P.flatMap (mdEntries env)) m = true := by
  cases P with
  | nil => rfl
  | cons p P2 =>
    rw [List.flatMap_cons]
    unfold mdEntries
    rcases hml : mdsList env with _ | ⟨h, t⟩
    · rw [hml] at hm
      cases hm
    · have hpw := mdsList_pairwise env
      rw [hml] at hpw hm
      have hhm : h ≤ m := by
        rcases List.mem_cons.mp hm with h1 | h1
        · exact le_of_eq h1.symm
        · exact le_of_lt ((List.pairwise_cons.mp hpw).1 m h1)
      simp [nextClears, hhm]

theorem clearsAtIdx_run (env : UpdateEnv) (pos : Int2) (j : ℤ) :
    ∀ (ms : List ℕ) (l : List (Int2 × ℕ)), ms ≠ [] →
      (∀ m ∈ ms, nextClears l m = true) →
      clearsAtIdx env (ms.map (fun m => (pos, m)) ++ l) j
        = (decide (blockPosToIdx env.nx pos = j) || clearsAtIdx env l j)
  | [], _, h, _ => absurd rfl h
  | [m], l, _, hb => by
    show clearsAtIdx env ((pos, m) :: l) j = _
    rw [clearsAtIdx_cons, hb m (by simp)]
    simp
  | m :: m2 :: ms, l, _, hb => by
    show clearsAtIdx env ((pos, m) :: (List.map (fun m => (pos, m)) (m2 :: ms) ++ l)) j = _
    rw [clearsAtIdx_cons]
    rw [clearsAtIdx_run env pos j (m2 :: ms) l (by simp)
      (fun m3 hm3 => hb m3 (List.mem_cons_of_mem m hm3))]
    cases hd : decide (blockPosToIdx env.nx pos = j) <;> simp [hd]

theorem mdEntries_def (env : UpdateEnv) (pos : Int2) :
    mdEntries env pos = (mdsList env).map (fun m => (pos, m)) := rfl

theorem clearsAtIdx_flatMap (env : UpdateEnv) (hmd : mdsList env ≠ []) :
    ∀ (P : List Int2) (j : ℤ),
      clearsAtIdx env (P.flatMap (mdEntries env)) j
        = P.any (fun pos => decide (blockPosToIdx env.nx pos = j))
  | [], _ => rfl
  | pos :: P2, j => by
    rw [List.flatMap_cons, mdEntries_def]
    rw [clearsAtIdx_run env pos j (mdsList env) (P2.flatMap (mdEntries env)) hmd
      (fun m hm => nextClears_flatMap env P2 m hm)]
    rw [clearsAtIdx_flatMap env hmd P2 j]
    simp

theorem update_core_qinv (env : UpdateEnv) (st : UpState) (cap pen2 : ℤ)
    (hmd : mdsList env ≠ []) (hq : QInv env st) :
    QInv env (serialPhase env (drainLoop env cap st.nodeMask st.updatedBlocks []).1
        (offsetsPhase env (drainLoop env cap st.nodeMask st.updatedBlocks []).1
          { st with updatedBlocks := (drainLoop env cap st.nodeMask st.updatedBlocks []).2, blockUpdatePenalty := pen2 })) ∧
    (∀ e ∈ (drainLoop env cap st.nodeMask st.updatedBlocks []).1,
      (st.nodeMask (blockPosToIdx env.nx e.1)).obsolete = true ∧
      ((serialPhase env (drainLoop env cap st.nodeMask st.updatedBlocks []).1
          (offsetsPhase env (drainLoop env cap st.nodeMask st.updatedBlocks []).1
            { st with updatedBlocks := (drainLoop env cap st.nodeMask st.updatedBlocks []).2, blockUpdatePenalty := pen2 })).nodeMask (blockPosToIdx env.nx e.1)).obsolete
        = false ∧
      e.1 ∉ (serialPhase env (drainLoop env cap st.nodeMask st.updatedBlocks []).1
          (offsetsPhase env (drainLoop env cap st.nodeMask st.updatedBlocks []).1
            { st with updatedBlocks := (drainLoop env cap st.nodeMask st.updatedBlocks []).2, blockUpdatePenalty := pen2 })).updatedBlocks) := by
  obtain ⟨hnd, hmem, hiff⟩ := hq
  obtain ⟨popped, hsplit, hcons⟩ := drainLoop_spec env cap st.nodeMask st.updatedBlocks []
  simp only [List.nil_append] at hcons
  set C := (drainLoop env cap st.nodeMask st.updatedBlocks []).1 with hCdef
  set Q2 := (drainLoop env cap st.nodeMask st.updatedBlocks []).2 with hQdef
  set P := popped.filter (fun pos => (st.nodeMask (blockPosToIdx env.nx pos)).obsolete)
    with hPdef
  have hst3queue : ∀ (stX : UpState),
      (serialPhase env C (offsetsPhase env C stX)).updatedBlocks = stX.updatedBlocks := by
    intro stX
    rw [serialPhase_queue env C _, (offsetsPhase_fields env C stX).2]
  have hst3mask : ∀ (stX : UpState) (j : ℤ),
      ((serialPhase env C (offsetsPhase env C stX)).nodeMask j).obsolete
        = ((stX.nodeMask j).obsolete && !(clearsAtIdx env C j)) := by
    intro stX j
    rw [serialPhase_obsolete env C _ j, (offsetsPhase_fields env C stX).1]
  have hclr : ∀ j, clearsAtIdx env C j
      = P.any (fun pos => decide (blockPosToIdx env.nx pos = j)) := by
    intro j
    rw [hcons]
    exact clearsAtIdx_flatMap env hmd P j
  have hndpq : (popped ++ Q2).Nodup := by
    rw [← hsplit]
    exact hnd
  have hdisj : ∀ a, a ∈ popped → a ∈ Q2 → False := by
    have hd := (List.nodup_append.mp hndpq).2.2
    exact fun a h1 h2 => hd h1 h2
  have hndQ : Q2.Nodup := (List.nodup_append.mp hndpq).2.1
  have hmemQ : ∀ p ∈ Q2, p ∈ st.updatedBlocks := by
    intro p hp
    rw [hsplit]
    exact List.mem_append.mpr (Or.inr hp)
  have hmemP : ∀ p ∈ P, p ∈ popped := fun p hp => List.mem_of_mem_filter hp
  have hmempop : ∀ p ∈ popped, p ∈ st.updatedBlocks := by
    intro p hp
    rw [hsplit]
    exact List.mem_append.mpr (Or.inl hp)
  have hanyQ : ∀ p, blockInMap env.nx env.nz p → p ∈ Q2 →
      P.any (fun pos => decide (blockPosToIdx env.nx pos = blockPosToIdx env.nx p)) = false := by
    intro p hp hpQ
    by_contra hT
    have hT2 : P.any (fun pos => decide (blockPosToIdx env.nx pos = blockPosToIdx env.nx p))
        = true := by
      revert hT
      cases P.any (fun pos => decide (blockPosToIdx env.nx pos = blockPosToIdx env.nx p)) <;>
        simp
    obtain ⟨pos, hposP, hdec⟩ := List.any_eq_true.mp hT2
    have heq : blockPosToIdx env.nx pos = blockPosToIdx env.nx p := of_decide_eq_true hdec
    have hposmem : pos ∈ popped := hmemP pos hposP
    have hposin : blockInMap env.nx env.nz pos := hmem pos (hmempop pos hposmem)
    have hpe : pos = p := blockPosToIdx_inj env.nx env.nz pos p hposin hp heq
    subst hpe
    exact hdisj pos hposmem hpQ
  refine ⟨⟨?_, ?_, ?_⟩, ?_⟩
  · rw [hst3queue _]
    exact hndQ
  · intro pos hpos
    rw [hst3queue _] at hpos
    exact hmem pos (hmemQ pos hpos)
  · intro p hp
    rw [hst3queue _]
    constructor
    · intro hpQ
      rw [hst3mask _ _]
      have h1 : (st.nodeMask (blockPosToIdx env.nx p)).obsolete = true :=
        (hiff p hp).mp (hmemQ p hpQ)
      rw [h1, hclr, hanyQ p hp hpQ]
      rfl
    · intro hob
      rw [hst3mask _ _] at hob
      have h1 : (st.nodeMask (blockPosToIdx env.nx p)).obsolete = true := by
        revert hob
        cases (st.nodeMask (blockPosToIdx env.nx p)).obsolete <;> simp
      have hpq : p ∈ st.updatedBlocks := (hiff p hp).mpr h1
      rw [hsplit] at hpq
      rcases List.mem_append.mp hpq with hpop | hq2
      · exfalso
        have hpP : p ∈ P := List.mem_filter.mpr ⟨hpop, h1⟩
        have hany : P.any (fun pos => decide (blockPosToIdx env.nx pos = blockPosToIdx env.nx p))
            = true := List.any_eq_true.mpr ⟨p, hpP, decide_eq_true rfl⟩
        rw [hclr, hany, h1] at hob
        simp at hob
      · exact hq2
  · intro e he
    rw [hcons] at he
    obtain ⟨pos, hposP, hent⟩ := List.mem_flatMap.mp he
    have he1 : e.1 = pos := by
      unfold mdEntries at hent
      obtain ⟨m, hm, rfl⟩ := List.mem_map.mp hent
      rfl
    have hobs : (st.nodeMask (blockPosToIdx env.nx pos)).obsolete = true :=
      (List.mem_filter.mp hposP).2
    have hpop : pos ∈ popped := hmemP pos hposP
    refine ⟨he1 ▸ hobs, ?_, ?_⟩
    · rw [hst3mask _ _, he1, hclr]
      have hany : P.any (fun q => decide (blockPosToIdx env.nx q = blockPosToIdx env.nx pos))
          = true := List.any_eq_true.mpr ⟨pos, hposP, decide_eq_true rfl⟩
      rw [hany]
      simp
    · rw [hst3queue _, he1]
      intro hQ
      exact hdisj pos hpop hQ

theorem updateRun_qinv (env : UpdateEnv) (st : UpState) (b2 pen2 : ℤ)
    (hmd : mdsList env ≠ []) (hq : QInv env st) :
    QInv env (updateRun env st b2 pen2).1 ∧
    (∀ e ∈ (updateRun env st b2 pen2).2,
      (st.nodeMask (blockPosToIdx env.nx e.1)).obsolete = true ∧
      ((updateRun env st b2 pen2).1.nodeMask (blockPosToIdx env.nx e.1)).obsolete = false ∧
      e.1 ∉ (updateRun env st b2 pen2).1.updatedBlocks) := by
  unfold updateRun
  dsimp only
  split
  · exact ⟨hq, by simp⟩
  · split
    · exact ⟨hq, by simp⟩
    · exact update_core_qinv env st b2 pen2 hmd hq

/-- C7: the obsolete-queue invariant.  If the FIFO is duplicate-free, holds
only in-map blocks and agrees with the OBSOLETE bits, then it still does
after any MapChanged (which suppresses re-enqueue of marked blocks) and
after any Update; moreover every block consumed by Update had its OBSOLETE
bit set beforehand, leaves with the bit cleared, and is no longer queued —
so it cannot be processed again until a later MapChanged re-marks it.
Assumes at least one move class with a nonzero reference count (with none,
Update drains the queue without clearing any bit). -/
theorem obsolete_queue_invariant (env : UpdateEnv) (st : UpState) (x1 z1 x2 z2 : ℕ)
    (hnx : 1 ≤ env.nx) (hnz : 1 ≤ env.nz) (hmd : mdsList env ≠ []) (hq : QInv env st) :
    QInv env (mapChanged env x1 z1 x2 z2 st) ∧
    QInv env (update env st).1 ∧
    (∀ e ∈ (update env st).2,
      (st.nodeMask (blockPosToIdx env.nx e.1)).obsolete = true ∧
      ((update env st).1.nodeMask (blockPosToIdx env.nx e.1)).obsolete = false ∧
      e.1 ∉ (update env st).1.updatedBlocks) := by
  refine ⟨mapChanged_inv env x1 z1 x2 z2 st hnx hnz hq, ?_⟩
  unfold update
  dsimp only
  exact updateRun_qinv env st _ _ hmd hq

/-- Witness for C7 on a concrete environment and the empty state. -/
theorem obsolete_queue_invariant_witness :
    QInv updateEnvC8 (mapChanged updateEnvC8 0 0 5 5 upStateEmpty) ∧
    QInv updateEnvC8 (update updateEnvC8 upStateEmpty).1 ∧
    (∀ e ∈ (update updateEnvC8 upStateEmpty).2,
      (upStateEmpty.nodeMask (blockPosToIdx updateEnvC8.nx e.1)).obsolete = true ∧
      ((update updateEnvC8 upStateEmpty).1.nodeMask
        (blockPosToIdx updateEnvC8.nx e.1)).obsolete = false ∧
      e.1 ∉ (update updateEnvC8 upStateEmpty).1.updatedBlocks) :=
  obsolete_queue_invariant updateEnvC8 upStateEmpty 0 0 5 5 (by decide) (by decide)
    (by decide) ⟨List.nodup_nil, by simp [upStateEmpty], fun pos _ => by simp [upStateEmpty]⟩

theorem pastLoop1_of_pastBarrier (p : WorkerPc) (h : pastBarrier p = true) :
    pastLoop1 p = true := by
  cases p <;> simp [pastLoop1, pastBarrier] at h ⊢

theorem pending_preserved {n : ℕ} (s : PreState n) (w : Fin n) (v : WorkerPc)
    (hpc : ∀ b2 : ℤ, s.pc w ≠ .comp1 b2) (b : ℤ)
    (h : s.offWritten b = true ∨ ∃ w3, s.pc w3 = .comp1 b) :
    s.offWritten b = true ∨ ∃ w3, Function.update s.pc w v w3 = .comp1 b := by
  rcases h with h | ⟨w3, hw3⟩
  · exact Or.inl h
  · refine Or.inr ⟨w3, ?_⟩
    rw [Function.update_apply]
    rw [if_neg ?_]
    · exact hw3
    · intro he
      subst he
      exact hpc b hw3

theorem preInv_reachable (n nb : ℕ) (s : PreState n) (h : PreReachable n nb s) :
    PreInv n nb s := by
  unfold PreReachable at h
  induction h with
  | refl =>
    refine ⟨?_, ?_, ?_⟩
    · rintro ⟨w, hw⟩
      simp [preInit, pastLoop1] at hw
    · intro b hb0 hbn hbc
      exfalso
      simp only [preInit] at hbc
      omega
    · rintro ⟨w, hw⟩
      simp [preInit, pastBarrier] at hw
  | @tail s scur hsteps hstep ih =>
    obtain ⟨cl1, cl2, cl3⟩ := ih
    cases hstep with
    | claim1 w hpcw hcnt =>
      refine ⟨?_, ?_, ?_⟩
      · rintro ⟨w2, hw2⟩
        dsimp only at hw2 ⊢
        rw [Function.update_apply] at hw2
        split at hw2
        · simp [pastLoop1] at hw2
        · have := cl1 ⟨w2, hw2⟩
          omega
      · intro b hb0 hbn hbc
        dsimp only at hbc ⊢
        by_cases hbe : b < (nb : ℤ) - s.offCnt
        · refine pending_preserved s w _ ?_ b (cl2 b hb0 hbn hbe)
          intro b2 hb2
          rw [hpcw] at hb2
          cases hb2
        · have hbeq : b = (nb : ℤ) - s.offCnt := by omega
          refine Or.inr ⟨w, ?_⟩
          rw [Function.update_apply, if_pos rfl, hbeq]
      · rintro ⟨w2, hw2⟩
        exfalso
        dsimp only at hw2
        rw [Function.update_apply] at hw2
        split at hw2
        · simp [pastBarrier] at hw2
        · have hall := cl3 ⟨w2, hw2⟩
          have := cl1 ⟨w2, pastLoop1_of_pastBarrier _ hw2⟩
          omega
    | exit1 w hpcw hcnt =>
      refine ⟨?_, ?_, ?_⟩
      · intro _
        dsimp only
        omega
      · intro b hb0 hbn hbc
        dsimp only at hbc ⊢
        have hbe : b < (nb : ℤ) - s.offCnt := by omega
        refine pending_preserved s w _ ?_ b (cl2 b hb0 hbn hbe)
        intro b2 hb2
        rw [hpcw] at hb2
        cases hb2
      · rintro ⟨w2, hw2⟩
        exfalso
        dsimp only at hw2
        rw [Function.update_apply] at hw2
        split at hw2
        · simp [pastBarrier] at hw2
        · have hall := cl3 ⟨w2, hw2⟩
          have hw3 := hall w
          rw [hpcw] at hw3
          simp [pastLoop1] at hw3
    | write1 w b hpcw =>
      refine ⟨?_, ?_, ?_⟩
      · rintro ⟨w2, hw2⟩
        dsimp only at hw2 ⊢
        rw [Function.update_apply] at hw2
        split at hw2
        · simp [pastLoop1] at hw2
        · exact cl1 ⟨w2, hw2⟩
      · intro b2 hb0 hbn hbc
        dsimp only at hbc ⊢
        rcases cl2 b2 hb0 hbn hbc with hwr | ⟨w3, hw3⟩
        · refine Or.inl ?_
          rw [Function.update_apply]
          split
          · rfl
          · exact hwr
        · by_cases hww : w3 = w
          · subst hww
            rw [hpcw] at hw3
            have hbb : b = b2 := by
              cases hw3
              rfl
            refine Or.inl ?_
            rw [← hbb, Function.update_same]
          · refine Or.inr ⟨w3, ?_⟩
            rw [Function.update_apply, if_neg hww]
            exact hw3
      · rintro ⟨w2, hw2⟩
        exfalso
        dsimp only at hw2
        rw [Function.update_apply] at hw2
        split at hw2
        · simp [pastBarrier] at hw2
        · have hall := cl3 ⟨w2, hw2⟩
          have hw3 := hall w
          rw [hpcw] at hw3
          simp [pastLoop1] at hw3
    | pass w hpcw hall =>
      refine ⟨?_, ?_, ?_⟩
      · intro _
        dsimp only
        exact cl1 ⟨w, by rw [hpcw]; rfl⟩
      · intro b hb0 hbn hbc
        dsimp only at hbc ⊢
        refine pending_preserved s w _ ?_ b (cl2 b hb0 hbn hbc)
        intro b2 hb2
        rw [hpcw] at hb2
        cases hb2
      · intro _
        intro w4
        dsimp only
        rw [Function.update_apply]
        split
        · rfl
        · exact hall w4
    | claim2 w hpcw hcnt =>
      refine ⟨?_, ?_, ?_⟩
      · rintro ⟨w2, hw2⟩
        dsimp only at hw2 ⊢
        rw [Function.update_apply] at hw2
        split at hw2
        · exact cl1 ⟨w, by rw [hpcw]; rfl⟩
        · exact cl1 ⟨w2, hw2⟩
      · intro b hb0 hbn hbc
        dsimp only at hbc ⊢
        refine pending_preserved s w _ ?_ b (cl2 b hb0 hbn hbc)
        intro b2 hb2
        rw [hpcw] at hb2
        cases hb2
      · intro _
        have hall := cl3 ⟨w, by rw [hpcw]; rfl⟩
        intro w4
        dsimp only
        rw [Function.update_apply]
        split
        · rfl
        · exact hall w4
    | exit2 w hpcw hcnt =>
      refine ⟨?_, ?_, ?_⟩
      · rintro ⟨w2, hw2⟩
        dsimp only at hw2 ⊢
        rw [Function.update_apply] at hw2
        split at hw2
        · exact cl1 ⟨w, by rw [hpcw]; rfl⟩
        · exact cl1 ⟨w2, hw2⟩
      · intro b hb0 hbn hbc
        dsimp only at hbc ⊢
        refine pending_preserved s w _ ?_ b (cl2 b hb0 hbn hbc)
        intro b2 hb2
        rw [hpcw] at hb2
        cases hb2
      · intro _
        have hall := cl3 ⟨w, by rw [hpcw]; rfl⟩
        intro w4
        dsimp only
        rw [Function.update_apply]
        split
        · rfl
        · exact hall w4
    | write2 w b hpcw =>
      refine ⟨?_, ?_, ?_⟩
      · rintro ⟨w2, hw2⟩
        dsimp only at hw2 ⊢
        rw [Function.update_apply] at hw2
        split at hw2
        · exact cl1 ⟨w, by rw [hpcw]; rfl⟩
        · exact cl1 ⟨w2, hw2⟩
      · intro b2 hb0 hbn hbc
        dsimp only at hbc ⊢
        refine pending_preserved s w _ ?_ b2 (cl2 b2 hb0 hbn hbc)
        intro b3 hb3
        rw [hpcw] at hb3
        cases hb3
      · intro _
        have hall := cl3 ⟨w, by rw [hpcw]; rfl⟩
        intro w4
        dsimp only
        rw [Function.update_apply]
        split
        · rfl
        · exact hall w4

/-- C2: two-phase precompute ordering.  In every reachable state of the
precompute driver, if any worker is computing phase-2 vertex costs for some
block, then every worker has left the phase-1 loop (they all rendezvoused at
the barrier) and the phase-1 offsets of every block of the map have been
completely written — in particular those of both endpoint blocks of every
edge the worker reads. -/
theorem precompute_two_phase (n nb : ℕ) (s : PreState n) (h : PreReachable n nb s)
    (w : Fin n) (b2 : ℤ) (hw : s.pc w = .comp2 b2) :
    (∀ w2, pastLoop1 (s.pc w2) = true) ∧
    (∀ b : ℤ, 0 ≤ b → b < (nb : ℤ) → s.offWritten b = true) := by
  obtain ⟨cl1, cl2, cl3⟩ := preInv_reachable n nb s h
  have hall : ∀ w2, pastLoop1 (s.pc w2) = true := cl3 ⟨w, by rw [hw]; rfl⟩
  refine ⟨hall, ?_⟩
  intro b hb0 hbn
  have hcnt : s.offCnt < 0 := cl1 ⟨w, by rw [hw]; rfl⟩
  rcases cl2 b hb0 hbn (by omega) with hwr | ⟨w3, hw3⟩
  · exact hwr
  · have hw4 := hall w3
    rw [hw3] at hw4
    simp [pastLoop1] at hw4

/-- Witness for C2: a single worker over a single block claims and writes
the block's offsets, exits phase 1, passes the barrier and claims the block
for phase 2; the theorem yields that the offsets are written there. -/
theorem precompute_two_phase_witness :
    preWit5.offWritten 0 = true ∧ pastLoop1 (preWit5.pc 0) = true := by
  have h1 : PreStep 1 1 (preInit 1 1) preWit1 := PreStep.claim1 _ 0 rfl (by decide)
  have h2 : PreStep 1 1 preWit1 preWit2 := PreStep.write1 _ 0 _ rfl
  have h3 : PreStep 1 1 preWit2 preWit3 := PreStep.exit1 _ 0 rfl (by decide)
  have h4 : PreStep 1 1 preWit3 preWit4 :=
    PreStep.pass _ 0 rfl (by intro w2; fin_cases w2 <;> rfl)
  have h5 : PreStep 1 1 preWit4 preWit5 := PreStep.claim2 _ 0 rfl (by decide)
  have hreach : PreReachable 1 1 preWit5 :=
    Relation.ReflTransGen.tail
      (Relation.ReflTransGen.tail
        (Relation.ReflTransGen.tail
          (Relation.ReflTransGen.tail
            (Relation.ReflTransGen.tail Relation.ReflTransGen.refl h1) h2) h3) h4) h5
  have hpc : preWit5.pc 0 = .comp2 (((1 : ℕ) : ℤ) - preWit4.costCnt) := rfl
  refine ⟨(precompute_two_phase 1 1 preWit5 hreach 0 _ hpc).2 0 (by decide) (by decide),
    (precompute_two_phase 1 1 preWit5 hreach 0 _ hpc).1 0⟩

end SpringPE
